import Mathlib

set_option maxHeartbeats 1000000

/-!
Verification of the sisvida-bot HL7 protocol engine, shallowly embedded from
`src/tcp-server.ts`, `src/data-persistence.ts`, `src/retry-processor.ts` and
`src/integrated-server.ts`.  Wire text (byte streams, message frames, segment
and field values) is modelled as lists of characters; JavaScript numbers that
reach observable string output are modelled exactly over the rationals.
-/

/-- Character strings of the wire protocol, as lists of characters. -/
abbrev Str := List Char

/-- The vertical-tab start-of-block marker `'\x0B'` of the URIT-5160 framing. -/
def SB : Char := '\x0B'

/-- The file-separator end-of-block marker `'\x1C'` of the URIT-5160 framing. -/
def FS : Char := '\x1C'

/-- JavaScript `String.prototype.trim` whitespace, restricted to the ASCII
range actually reachable from the analyzers: space, tab, LF, VT, FF, CR. -/
def jsSpace (c : Char) : Bool :=
  c = ' ' || c = '\t' || c = '\n' || c = '\x0B' || c = '\x0C' || c = '\r'

/-- JS `s.trim()`. -/
def jsTrim (s : Str) : Str :=
  ((s.dropWhile jsSpace).reverse.dropWhile jsSpace).reverse

/-- JS `s.split(sep)` for a single-character separator (keeps empty pieces,
as `String.prototype.split` does). -/
def splitSep (sep : Char) : Str → List Str
  | [] => [[]]
  | c :: rest =>
    if c = sep then [] :: splitSep sep rest
    else
      match splitSep sep rest with
      | [] => [[c]]
      | f :: fs => (c :: f) :: fs

/-- JS `s.split(/\r\n|\r|\n/)`: a CRLF pair, a lone CR or a lone LF each
separate lines. -/
def lineSplit : Str → List Str
  | [] => [[]]
  | '\r' :: '\n' :: rest => [] :: lineSplit rest
  | '\r' :: rest => [] :: lineSplit rest
  | '\n' :: rest => [] :: lineSplit rest
  | c :: rest =>
    match lineSplit rest with
    | [] => [[c]]
    | f :: fs => (c :: f) :: fs

/-- `fields[i] || ''`: a field past the end of the split (or an empty field)
reads as the empty string, never an error. -/
def fieldAt (fields : List Str) (i : Nat) : Str := fields.getD i []

/-- MSH header segment (`MSHSegment` in `src/tcp-server.ts`). -/
structure MSHSegment where
  sendingApplication : Str
  sendingFacility : Str
  receivingApplication : Str
  receivingFacility : Str
  dateTime : Str
  messageType : Str
  messageControlId : Str
  processingId : Str
  versionId : Str
deriving DecidableEq

/-- PID patient segment. -/
structure PIDSegment where
  sampleId : Str
  patientName : Str
  dateOfBirth : Str
  sex : Str
deriving DecidableEq

/-- PV1 visit segment. -/
structure PV1Segment where
  patientClass : Str
  assignedPatientLocation : Str
deriving DecidableEq

/-- OBR order segment. -/
structure OBRSegment where
  placerOrderNumber : Str
  universalServiceId : Str
  requestedDateTime : Str
  relevantClinicalInfo : Str
  specimenSource : Str
  orderingProvider : Str
deriving DecidableEq

/-- OBX observation segment. -/
structure OBXSegment where
  setId : Str
  valueType : Str
  observationIdentifier : Str
  observationSubId : Str
  observationValue : Str
  units : Str
  referencesRange : Str
  abnormalFlags : Str
  observationStatus : Str
deriving DecidableEq

/-- MSA acknowledgment segment. -/
structure MSASegment where
  acknowledgmentCode : Str
  messageControlId : Str
  textMessage : Str
  errorCondition : Str
deriving DecidableEq

/-- ERR error segment. -/
structure ERRSegment where
  errorCode : Str
  testTubeNo : Option Str
  testTubeRackNo : Option Str
deriving DecidableEq

/-- A parsed HL7 transmission (`HL7Message` in `src/tcp-server.ts`).  The JS
object starts with `msh: {} as MSHSegment` (all header fields undefined);
absent fields are modelled as empty strings, optional segments as `Option`. -/
structure HL7Message where
  msh : MSHSegment
  pid : Option PIDSegment
  pv1 : Option PV1Segment
  obr : Option OBRSegment
  obx : List OBXSegment
  msa : Option MSASegment
  err : Option ERRSegment
deriving DecidableEq

/-- The initial `{ msh: {} as MSHSegment, obx: [] }` accumulator. -/
def emptyHL7 : HL7Message :=
  { msh := ⟨[], [], [], [], [], [], [], [], []⟩
    pid := none, pv1 := none, obr := none, obx := [], msa := none, err := none }

/-- `parseMSH` (identical in the URIT5160Server and URIT8031Server classes). -/
def parseMSH (fields : List Str) : MSHSegment :=
  { sendingApplication := fieldAt fields 2
    sendingFacility := fieldAt fields 3
    receivingApplication := fieldAt fields 4
    receivingFacility := fieldAt fields 5
    dateTime := fieldAt fields 6
    messageType := fieldAt fields 8
    messageControlId := fieldAt fields 9
    processingId := fieldAt fields 10
    versionId := fieldAt fields 11 }

/-- `parsePV1` (identical in both server classes). -/
def parsePV1 (fields : List Str) : PV1Segment :=
  { patientClass := fieldAt fields 1
    assignedPatientLocation := fieldAt fields 2 }

/-- `parseOBR` (identical in both server classes). -/
def parseOBR (fields : List Str) : OBRSegment :=
  { placerOrderNumber := fieldAt fields 1
    universalServiceId := fieldAt fields 3
    requestedDateTime := fieldAt fields 5
    relevantClinicalInfo := fieldAt fields 12
    specimenSource := fieldAt fields 14
    orderingProvider := fieldAt fields 15 }

/-- `parseMSA` (identical in both server classes). -/
def parseMSA (fields : List Str) : MSASegment :=
  { acknowledgmentCode := fieldAt fields 1
    messageControlId := fieldAt fields 2
    textMessage := fieldAt fields 3
    errorCondition := fieldAt fields 6 }

/-- `parseERR` (identical in both server classes); `fields[2]` is read without
a default, hence `Option`. -/
def parseERR (fields : List Str) : ERRSegment :=
  let errorCode := fieldAt fields 1
  { errorCode := errorCode
    testTubeNo :=
      if errorCode = "001".toList ∨ errorCode = "002".toList ∨ errorCode = "003".toList
      then fields.get? 2 else none
    testTubeRackNo := if errorCode = "004".toList then fields.get? 2 else none }

namespace URIT5160

/-- `URIT5160Server.parsePID`: field 5 is the sample id (Family A). -/
def parsePID (fields : List Str) : PIDSegment :=
  { sampleId := fieldAt fields 5
    patientName := fieldAt fields 4
    dateOfBirth := fieldAt fields 6
    sex := fieldAt fields 7 }

/-- `URIT5160Server.parseOBX`: the parameter code is field 3, the sub-id is
field 4 (Family A layout). -/
def parseOBX (fields : List Str) : OBXSegment :=
  { setId := fieldAt fields 1
    valueType := fieldAt fields 2
    observationIdentifier := fieldAt fields 3
    observationSubId := fieldAt fields 4
    observationValue := fieldAt fields 5
    units := fieldAt fields 6
    referencesRange := fieldAt fields 7
    abnormalFlags := fieldAt fields 8
    observationStatus := fieldAt fields 10 }

end URIT5160

namespace URIT8031

/-- `URIT8031Server.parsePID`: field 1 is the sample id (Family B). -/
def parsePID (fields : List Str) : PIDSegment :=
  { sampleId := fieldAt fields 1
    patientName := fieldAt fields 4
    dateOfBirth := fieldAt fields 6
    sex := fieldAt fields 7 }

/-- `URIT8031Server.parseOBX`: the parameter code is field 4, the sequence
number is field 3 (Family B layout). -/
def parseOBX (fields : List Str) : OBXSegment :=
  { setId := fieldAt fields 1
    valueType := fieldAt fields 2
    observationIdentifier := fieldAt fields 4
    observationSubId := fieldAt fields 3
    observationValue := fieldAt fields 5
    units := fieldAt fields 6
    referencesRange := fieldAt fields 7
    abnormalFlags := fieldAt fields 8
    observationStatus := fieldAt fields 10 }

end URIT8031

/-- One `switch (segmentType)` iteration of `parseHL7Message`, parameterised by
the family's PID and OBX parsers (the rest of the switch is identical in both
server classes).  Unknown segment types are skipped. -/
def applySegment (parsePID : List Str → PIDSegment) (parseOBX : List Str → OBXSegment)
    (m : HL7Message) (segment : Str) : HL7Message :=
  let fields := splitSep '|' segment
  let segmentType := fields.headD []
  if segmentType = "MSH".toList then { m with msh := parseMSH fields }
  else if segmentType = "PID".toList then { m with pid := some (parsePID fields) }
  else if segmentType = "PV1".toList then { m with pv1 := some (parsePV1 fields) }
  else if segmentType = "OBR".toList then { m with obr := some (parseOBR fields) }
  else if segmentType = "OBX".toList then { m with obx := m.obx ++ [parseOBX fields] }
  else if segmentType = "MSA".toList then { m with msa := some (parseMSA fields) }
  else if segmentType = "ERR".toList then { m with err := some (parseERR fields) }
  else m

/-- The segment lines of a message text: split on `\r\n`, `\r` or `\n` and
keep the lines whose trim is non-empty (`.filter(segment => segment.trim())`). -/
def segmentsOfFrame (message : Str) : List Str :=
  (lineSplit message).filter (fun s => !(jsTrim s).isEmpty)

/-- `parseHL7Message`, parameterised by the family's PID/OBX parsers.  It is a
total function: no code path in the source throws. -/
def parseHL7MessageWith (parsePID : List Str → PIDSegment)
    (parseOBX : List Str → OBXSegment) (message : Str) : HL7Message :=
  (segmentsOfFrame message).foldl (applySegment parsePID parseOBX) emptyHL7

/-- `URIT5160Server.parseHL7Message`. -/
def URIT5160.parseHL7Message (message : Str) : HL7Message :=
  parseHL7MessageWith URIT5160.parsePID URIT5160.parseOBX message

/-- `URIT8031Server.parseHL7Message`. -/
def URIT8031.parseHL7Message (message : Str) : HL7Message :=
  parseHL7MessageWith URIT8031.parsePID URIT8031.parseOBX message


/-- A JS `Record<string, string>` with its insertion-ordered keys: an
association list where assigning an existing key updates it in place and a
new key is appended. -/
abbrev RMap := List (Str × Str)

/-- Property read `m[k]`. -/
def rmGet : RMap → Str → Option Str
  | [], _ => none
  | (k2, v) :: rest, k => if k2 = k then some v else rmGet rest k

/-- Property write `m[k] = v`. -/
def rmSet : RMap → Str → Str → RMap
  | [], k, v => [(k, v)]
  | (k2, v2) :: rest, k, v =>
    if k2 = k then (k2, v) :: rest else (k2, v2) :: rmSet rest k v

/-- Decimal digits to a natural number. -/
def digitsToNat (s : Str) : Nat :=
  s.foldl (fun n c => 10 * n + (c.toNat - '0'.toNat)) 0

/-- JS `Number(s)` for the unsigned decimal literals the analyzers send
(`ddd` or `ddd.ddd`), modelled exactly over the rationals; other inputs are
NaN, modelled as `none`.  On these inputs the rational value rounded to an
integer string coincides with the IEEE-double computation of the source. -/
def parseDecimal (s : Str) : Option ℚ :=
  match splitSep '.' s with
  | [a] => if a ≠ [] ∧ a.all Char.isDigit then some (digitsToNat a : ℚ) else none
  | [a, b] =>
    if a ≠ [] ∧ b ≠ [] ∧ a.all Char.isDigit ∧ b.all Char.isDigit then
      some ((digitsToNat a : ℚ) + (digitsToNat b : ℚ) / (10 : ℚ) ^ b.length)
    else none
  | _ => none

/-- JS `x.toFixed(0)`: the nearest integer, ties toward `+∞`, as a string. -/
def toFixed0 (q : ℚ) : Str := (toString (Int.floor (q + 1/2))).toList

/-- `(Number(v) * 1000).toFixed(0)` — the ×1000 scale rule applied to the
text of an observation value (`NaN` when the value is not numeric). -/
def numTimes1000Fixed0 (v : Str) : Str :=
  match parseDecimal v with
  | some q => toFixed0 (q * 1000)
  | none => "NaN".toList

/-- The URIT-5160 vendor-code table (`parameterMapping` in
`extractHemogramaData`). -/
def hemogramaParameterMapping : List (Str × Str) :=
  [("WBC".toList, "LEU01".toList),
   ("RBC".toList, "HMC01".toList),
   ("HGB".toList, "HGB01".toList),
   ("HCT".toList, "HMT01".toList),
   ("RDW_CV".toList, "RDW01".toList),
   ("PLT".toList, "PTL01".toList),
   ("MPV".toList, "VPM01".toList),
   ("LYM%".toList, "LIN01".toList),
   ("MON%".toList, "MON01".toList),
   ("NEU%".toList, "SEG01".toList),
   ("EOS%".toList, "EOS01".toList),
   ("BASO%".toList, "BSF01".toList),
   ("MCV".toList, "VGMX5".toList),
   ("MCH".toList, "HGMX5".toList),
   ("MCHC".toList, "CHMX5".toList),
   ("NRBC%".toList, "ERITR".toList)]

/-- The eight canonical keys pre-seeded by `extractHemogramaData` with the
"not measured" sentinel `"0.0"`. -/
def hemogramaSeed : RMap :=
  [("BTN01".toList, "0.0".toList),
   ("LAT01".toList, "0.0".toList),
   ("ERITR".toList, "0.0".toList),
   ("PRO01".toList, "0.0".toList),
   ("MIE01".toList, "0.0".toList),
   ("MTM01".toList, "0.0".toList),
   ("BLAST".toList, "0.0".toList),
   ("CELAT".toList, "0.0".toList)]

/-- The eight pre-seeded canonical keys. -/
def hemogramaSeedKeys : List Str :=
  ["BTN01".toList, "LAT01".toList, "ERITR".toList, "PRO01".toList,
   "MIE01".toList, "MTM01".toList, "BLAST".toList, "CELAT".toList]

/-- One loop iteration of `extractHemogramaData`: numeric, non-empty-valued
observations whose vendor code is known are written to the map; `PTL01` and
`LEU01` go through the ×1000 scale rule first. -/
def hemogramaStep (acc : RMap) (obx : OBXSegment) : RMap :=
  if obx.valueType = "NM".toList ∧ obx.observationValue ≠ [] then
    match rmGet hemogramaParameterMapping obx.observationIdentifier with
    | some sisvidaCode =>
      if sisvidaCode = "PTL01".toList ∨ sisvidaCode = "LEU01".toList then
        rmSet acc sisvidaCode (numTimes1000Fixed0 obx.observationValue)
      else rmSet acc sisvidaCode obx.observationValue
    | none => acc
  else acc

/-- `extractHemogramaData` (Family A parameter mapper). -/
def extractHemogramaData (obxSegments : List OBXSegment) : RMap :=
  obxSegments.foldl hemogramaStep hemogramaSeed

/-- The URIT-8031 vendor-code table (`parameterMapping` in
`extractBiochemistryData`). -/
def biochemistryParameterMapping : List (Str × Str) :=
  [("GLI".toList, "GLI01".toList),
   ("ALT".toList, "ALT01".toList),
   ("AST".toList, "AST01".toList),
   ("CRE".toList, "CRE01".toList),
   ("URE".toList, "URE01".toList),
   ("COL".toList, "COL01".toList),
   ("TRI".toList, "TRI01".toList),
   ("ALB".toList, "ALB01".toList),
   ("BIL".toList, "BIL01".toList),
   ("HDL".toList, "HDL01".toList),
   ("LDL".toList, "LDL01".toList),
   ("ALP".toList, "ALP01".toList),
   ("GGT".toList, "GGT01".toList),
   ("LDH".toList, "LDH01".toList),
   ("AMY".toList, "AMY01".toList),
   ("LIP".toList, "LIP01".toList),
   ("CK".toList, "CK01".toList),
   ("UA".toList, "UA01".toList),
   ("TP".toList, "TP01".toList),
   ("GLO".toList, "GLO01".toList)]

/-- One loop iteration of `extractBiochemistryData` (no scale rule, no seed). -/
def biochemistryStep (acc : RMap) (obx : OBXSegment) : RMap :=
  if obx.valueType = "NM".toList ∧ obx.observationValue ≠ [] then
    match rmGet biochemistryParameterMapping obx.observationIdentifier with
    | some sisvidaCode => rmSet acc sisvidaCode obx.observationValue
    | none => acc
  else acc

/-- `extractBiochemistryData` (Family B parameter mapper): starts empty. -/
def extractBiochemistryData (obxSegments : List OBXSegment) : RMap :=
  obxSegments.foldl biochemistryStep []

/-- `URIT5160Server.createAcknowledgment`: a positive acknowledgment framed by
the Family-A block markers.  The `new Date()`/`Date.now()` texts interpolated
into the MSH line are parameters. -/
def URIT5160.createAcknowledgment (dateStr ackNum messageControlId : Str) : Str :=
  [SB] ++ "MSH|^~\\&|LIS|PC|URIT|UT-5160|".toList ++ dateStr
    ++ "||ACK^R01|ACK".toList ++ ackNum ++ "|P|2.3.1||||||UNICODE".toList
    ++ ['\r'] ++ "MSA|AA|".toList ++ messageControlId ++ ['\r'] ++ [FS, '\r']

/-- `URIT5160Server.createNegativeAcknowledgment`. -/
def URIT5160.createNegativeAcknowledgment (dateStr ackNum messageControlId errorCode : Str) : Str :=
  [SB] ++ "MSH|^~\\&|LIS|PC|URIT|UT-5160|".toList ++ dateStr
    ++ "||ACK^R01|ACK".toList ++ ackNum ++ "|P|2.3.1||||||UNICODE".toList
    ++ ['\r'] ++ "MSA|AE|".toList ++ messageControlId ++ ['\r']
    ++ "ERR||".toList ++ errorCode ++ ['\r'] ++ [FS, '\r']

/-- The acknowledgment a connection handler writes back, abstracted by its
MSA code and fields. -/
inductive AckResponse where
  | ack (messageControlId : Str)
  | nack (messageControlId errorCode : Str)
deriving DecidableEq

/-- The body of the URIT-5160 data handler applied to one extracted frame:
`parseHL7Message` is a total function (no code path in it throws, missing
fields read as empty strings), so the `catch` branch that would write the
103 NACK is unreachable for any frame and the server always acknowledges
positively with the parsed control id.  (When the frame has no MSH segment
the JS field is `undefined`, which the template literal renders as the text
"undefined"; the response is modelled abstractly by its code and id.) -/
def handleFrame (frame : Str) : AckResponse :=
  AckResponse.ack (URIT5160.parseHL7Message frame).msh.messageControlId

/-- Responses to a sequence of extracted frames, each handled independently
of the others (the handler keeps no per-message state). -/
def handleFrames (frames : List Str) : List AckResponse := frames.map handleFrame

/-- A decimal value splitting as integer and fraction digit runs parses to the
corresponding exact rational. -/
theorem parseDecimal_pair (a b s : Str)
    (ha : a ≠ [] ∧ b ≠ [] ∧ a.all Char.isDigit ∧ b.all Char.isDigit)
    (hs : splitSep '.' s = [a, b]) :
    parseDecimal s = some ((digitsToNat a : ℚ) + (digitsToNat b : ℚ) / 10 ^ b.length) := by
  rw [parseDecimal, hs]
  simp only [ha, if_pos]
  norm_num [ha]

/-- Spec-level predicate: the two-character end marker FS CR occurs in the
buffer at index `i`. -/
def endMarkerAt (b : Str) (i : Nat) : Prop :=
  b.get? i = some FS ∧ b.get? (i+1) = some '\r'

/-- Spec-level predicate: the start marker SB occurs in the buffer at `i`. -/
def startMarkerAt (b : Str) (i : Nat) : Prop := b.get? i = some SB

instance (b : Str) (i : Nat) : Decidable (endMarkerAt b i) := by
  unfold endMarkerAt; infer_instance

instance (b : Str) (i : Nat) : Decidable (startMarkerAt b i) := by
  unfold startMarkerAt; infer_instance

/-- JS `buffer.indexOf('\x1C\r')`. -/
def idxOfEnd : Str → Option Nat
  | [] => none
  | c :: rest =>
    if c = FS ∧ rest.head? = some '\r' then some 0
    else (idxOfEnd rest).map (· + 1)

/-- JS `buffer.indexOf('\x0B')`. -/
def idxOfStart : Str → Option Nat
  | [] => none
  | c :: rest => if c = SB then some 0 else (idxOfStart rest).map (· + 1)

theorem endMarkerAt_zero (c : Char) (b : Str) :
    endMarkerAt (c :: b) 0 ↔ (c = FS ∧ b.head? = some '\r') := by
  cases b <;> simp [endMarkerAt, List.get?]

theorem endMarkerAt_succ (c : Char) (b : Str) (j : Nat) :
    endMarkerAt (c :: b) (j+1) ↔ endMarkerAt b j := by
  simp [endMarkerAt, List.get?]

theorem startMarkerAt_succ (c : Char) (b : Str) (j : Nat) :
    startMarkerAt (c :: b) (j+1) ↔ startMarkerAt b j := by
  simp [startMarkerAt, List.get?]

/-- `indexOf` of the end marker: found exactly at the least index carrying it. -/
theorem idxOfEnd_eq_some_iff (b : Str) (e : Nat) :
    idxOfEnd b = some e ↔ (endMarkerAt b e ∧ ∀ j, j < e → ¬ endMarkerAt b j) := by
  induction b generalizing e with
  | nil => simp [idxOfEnd, endMarkerAt]
  | cons c rest ih =>
    rw [idxOfEnd]
    by_cases hc : c = FS ∧ rest.head? = some '\r'
    · rw [if_pos hc]
      cases e with
      | zero => simp [endMarkerAt_zero, hc]
      | succ e2 =>
        simp only [Option.some.injEq]
        constructor
        · intro h; exact absurd h.symm (Nat.succ_ne_zero e2)
        · intro ⟨_, hmin⟩
          exact absurd ((endMarkerAt_zero c rest).mpr hc) (hmin 0 (Nat.succ_pos e2))
    · rw [if_neg hc]
      cases e with
      | zero =>
        simp only [Option.map_eq_some']
        constructor
        · intro ⟨a, _, ha⟩; omega
        · intro ⟨h0, _⟩; exact absurd ((endMarkerAt_zero c rest).mp h0) hc
      | succ e2 =>
        constructor
        · intro h
          obtain ⟨a, ha, hae⟩ := Option.map_eq_some'.mp h
          rw [show a = e2 from by omega] at ha
          obtain ⟨hm, hmin⟩ := (ih e2).mp ha
          refine ⟨(endMarkerAt_succ c rest e2).mpr hm, ?_⟩
          intro j hj
          cases j with
          | zero => exact fun h0 => hc ((endMarkerAt_zero c rest).mp h0)
          | succ j2 =>
            intro hj2
            exact hmin j2 (by omega) ((endMarkerAt_succ c rest j2).mp hj2)
        · intro ⟨hm, hmin⟩
          have hm2 := (endMarkerAt_succ c rest e2).mp hm
          have : idxOfEnd rest = some e2 := by
            refine (ih e2).mpr ⟨hm2, ?_⟩
            intro j hj hemj
            exact hmin (j+1) (by omega) ((endMarkerAt_succ c rest j).mpr hemj)
          rw [this, Option.map_some']

/-- `indexOf` of the end marker: `-1` exactly when no index carries it. -/
theorem idxOfEnd_eq_none_iff (b : Str) :
    idxOfEnd b = none ↔ ∀ j, ¬ endMarkerAt b j := by
  induction b with
  | nil => simp [idxOfEnd, endMarkerAt]
  | cons c rest ih =>
    rw [idxOfEnd]
    by_cases hc : c = FS ∧ rest.head? = some '\r'
    · rw [if_pos hc]
      simp only [false_iff, reduceCtorEq]
      intro h
      exact h 0 ((endMarkerAt_zero c rest).mpr hc)
    · rw [if_neg hc]
      simp only [Option.map_eq_none']
      rw [ih]
      constructor
      · intro h j
        cases j with
        | zero => exact fun h0 => hc ((endMarkerAt_zero c rest).mp h0)
        | succ j2 => exact fun hj => h j2 ((endMarkerAt_succ c rest j2).mp hj)
      · intro h j hj
        exact h (j+1) ((endMarkerAt_succ c rest j).mpr hj)

/-- `indexOf` of the start marker: found exactly at the least index carrying it. -/
theorem idxOfStart_eq_some_iff (b : Str) (s : Nat) :
    idxOfStart b = some s ↔ (startMarkerAt b s ∧ ∀ j, j < s → ¬ startMarkerAt b j) := by
  induction b generalizing s with
  | nil => simp [idxOfStart, startMarkerAt]
  | cons c rest ih =>
    rw [idxOfStart]
    by_cases hc : c = SB
    · rw [if_pos hc]
      cases s with
      | zero => simp [startMarkerAt, List.get?, hc]
      | succ s2 =>
        simp only [Option.some.injEq]
        constructor
        · intro h; exact absurd h.symm (Nat.succ_ne_zero s2)
        · intro ⟨_, hmin⟩
          exact absurd (by simp [startMarkerAt, List.get?, hc]) (hmin 0 (Nat.succ_pos s2))
    · rw [if_neg hc]
      cases s with
      | zero =>
        simp only [Option.map_eq_some']
        constructor
        · intro ⟨a, _, ha⟩; omega
        · intro ⟨h0, _⟩
          exact absurd (by simpa [startMarkerAt, List.get?] using h0) hc
      | succ s2 =>
        constructor
        · intro h
          obtain ⟨a, ha, hae⟩ := Option.map_eq_some'.mp h
          rw [show a = s2 from by omega] at ha
          obtain ⟨hm, hmin⟩ := (ih s2).mp ha
          refine ⟨(startMarkerAt_succ c rest s2).mpr hm, ?_⟩
          intro j hj
          cases j with
          | zero =>
            intro h0
            exact hc (by simpa [startMarkerAt, List.get?] using h0)
          | succ j2 =>
            intro hj2
            exact hmin j2 (by omega) ((startMarkerAt_succ c rest j2).mp hj2)
        · intro ⟨hm, hmin⟩
          have hm2 := (startMarkerAt_succ c rest s2).mp hm
          have : idxOfStart rest = some s2 := by
            refine (ih s2).mpr ⟨hm2, ?_⟩
            intro j hj hsmj
            exact hmin (j+1) (by omega) ((startMarkerAt_succ c rest j).mpr hsmj)
          rw [this, Option.map_some']

/-- `indexOf` of the start marker: `-1` exactly when no index carries it. -/
theorem idxOfStart_eq_none_iff (b : Str) :
    idxOfStart b = none ↔ ∀ j, ¬ startMarkerAt b j := by
  induction b with
  | nil => simp [idxOfStart, startMarkerAt]
  | cons c rest ih =>
    rw [idxOfStart]
    by_cases hc : c = SB
    · rw [if_pos hc]
      simp only [false_iff, reduceCtorEq]
      intro h
      exact h 0 (by simp [startMarkerAt, List.get?, hc])
    · rw [if_neg hc]
      simp only [Option.map_eq_none']
      rw [ih]
      constructor
      · intro h j
        cases j with
        | zero => exact fun h0 => hc (by simpa [startMarkerAt, List.get?] using h0)
        | succ j2 => exact fun hj => h j2 ((startMarkerAt_succ c rest j2).mp hj)
      · intro h j hj
        exact h (j+1) ((startMarkerAt_succ c rest j).mpr hj)

/-- A found end marker lies two characters inside the buffer. -/
theorem idxOfEnd_le (b : Str) (e : Nat) (h : idxOfEnd b = some e) : e + 2 ≤ b.length := by
  induction b generalizing e with
  | nil => simp [idxOfEnd] at h
  | cons c rest ih =>
    rw [idxOfEnd] at h
    by_cases hc : c = FS ∧ rest.head? = some '\r'
    · rw [if_pos hc] at h
      obtain rfl : e = 0 := by simpa using h.symm
      cases rest with
      | nil => simp [List.head?] at hc
      | cons d tail => simp [List.length_cons]
    · rw [if_neg hc] at h
      obtain ⟨a, ha, rfl⟩ := Option.map_eq_some'.mp h
      have := ih a ha
      simp [List.length_cons]
      omega

/-- The `while (buffer.includes('\x1C\r'))` loop of the URIT-5160 data
handler, made structurally recursive on a fuel argument; each iteration
extracts the text between the first start marker and the first end marker
when the start comes first, and otherwise silently discards through the end
marker (including its two characters).  `fuel ≥ buffer.length` always
suffices: every iteration removes at least two characters. -/
def processAFuel : Nat → Str → List Str × Str
  | 0, buffer => ([], buffer)
  | fuel+1, buffer =>
    match idxOfEnd buffer with
    | none => ([], buffer)
    | some e =>
      match idxOfStart buffer with
      | some s =>
        if s < e then
          let msg := (buffer.drop (s+1)).take (e - (s+1))
          let res := processAFuel fuel (buffer.drop (e+2))
          (msg :: res.1, res.2)
        else processAFuel fuel (buffer.drop (e+2))
      | none => processAFuel fuel (buffer.drop (e+2))

/-- The Family-A frame assembler applied to the buffered data: the messages
emitted (in order) and the leftover buffer. -/
def processA (buffer : Str) : List Str × Str := processAFuel buffer.length buffer

/-- Fuel at least the buffer length is irrelevant to the result. -/
theorem processAFuel_congr (f1 : Nat) : ∀ (f2 : Nat) (b : Str),
    b.length ≤ f1 → b.length ≤ f2 → processAFuel f1 b = processAFuel f2 b := by
  induction f1 with
  | zero =>
    intro f2 b h1 _
    have hb : b = [] := List.length_eq_zero.mp (Nat.le_zero.mp h1)
    subst hb
    cases f2 with
    | zero => rfl
    | succ f3 => rw [processAFuel, processAFuel, show idxOfEnd [] = none from rfl]
  | succ f1p ih =>
    intro f2 b h1 h2
    cases f2 with
    | zero =>
      have hb : b = [] := List.length_eq_zero.mp (Nat.le_zero.mp h2)
      subst hb
      rw [processAFuel, processAFuel, show idxOfEnd [] = none from rfl]
    | succ f2p =>
      rw [processAFuel, processAFuel]
      cases he : idxOfEnd b with
      | none => rfl
      | some e =>
        have hlen := idxOfEnd_le b e he
        have hdrop : (b.drop (e+2)).length ≤ f1p := by
          rw [List.length_drop]; omega
        have hdrop2 : (b.drop (e+2)).length ≤ f2p := by
          rw [List.length_drop]; omega
        cases hs : idxOfStart b with
        | none => exact ih f2p (b.drop (e+2)) hdrop hdrop2
        | some s =>
          dsimp only
          by_cases hlt : s < e
          · rw [if_pos hlt, if_pos hlt, ih f2p (b.drop (e+2)) hdrop hdrop2]
          · rw [if_neg hlt, if_neg hlt]
            exact ih f2p (b.drop (e+2)) hdrop hdrop2

/-- Loop equation: no end marker buffered — nothing is emitted and the buffer
is retained. -/
theorem processA_no_end (b : Str) (h : idxOfEnd b = none) : processA b = ([], b) := by
  rw [processA]
  cases hl : b.length with
  | zero => rw [processAFuel]
  | succ n => rw [processAFuel, h]

/-- Loop equation: the first start marker precedes the first end marker — the
text strictly between them is emitted and the loop continues past the end
marker. -/
theorem processA_emit (b : Str) (e s : Nat)
    (he : idxOfEnd b = some e) (hs : idxOfStart b = some s) (hlt : s < e) :
    processA b =
      (((b.drop (s+1)).take (e - (s+1))) :: (processA (b.drop (e+2))).1,
        (processA (b.drop (e+2))).2) := by
  have hlen := idxOfEnd_le b e he
  rw [processA]
  cases hl : b.length with
  | zero => omega
  | succ n =>
    rw [processAFuel, he, hs]
    dsimp only
    rw [if_pos hlt]
    have : processAFuel n (b.drop (e+2)) = processA (b.drop (e+2)) := by
      rw [processA]
      exact processAFuel_congr n (b.drop (e+2)).length (b.drop (e+2))
        (by rw [List.length_drop]; omega) (le_refl _)
    rw [this]

/-- Loop equation: an end marker with no start marker strictly before it —
everything through the end marker is silently discarded and the loop
continues. -/
theorem processA_discard (b : Str) (e : Nat)
    (he : idxOfEnd b = some e)
    (hs : idxOfStart b = none ∨ ∃ s, idxOfStart b = some s ∧ ¬ s < e) :
    processA b = processA (b.drop (e+2)) := by
  have hlen := idxOfEnd_le b e he
  have hcont : processAFuel (b.length - 1) (b.drop (e+2)) = processA (b.drop (e+2)) := by
    rw [processA]
    exact processAFuel_congr (b.length - 1) (b.drop (e+2)).length (b.drop (e+2))
      (by rw [List.length_drop]; omega) (le_refl _)
  rw [processA]
  cases hl : b.length with
  | zero => omega
  | succ n =>
    rw [processAFuel, he]
    rcases hs with hnone | ⟨s, hsome, hge⟩
    · rw [hnone]
      dsimp only
      have : n = b.length - 1 := by omega
      rw [this, hcont]
    · rw [hsome]
      dsimp only
      rw [if_neg hge]
      have : n = b.length - 1 := by omega
      rw [this, hcont]

namespace URIT8031

/-- What caused a flush of the heuristic assembler's accumulation. -/
inductive FlushTrigger where
  | endToken
  | newHeader
  | longTimer
  | shortTimer
  | close
deriving DecidableEq

/-- Which `setTimeout` handle (if any) is armed: the 500 ms timer armed on an
MSH line, or the 100 ms timer re-armed on every appended OBX line.  Arming one
clears the other; `processCurrentMessage` clears both; a fired timer is spent. -/
inductive TimerState where
  | off
  | long
  | short
deriving DecidableEq

/-- The per-connection accumulation state of the URIT-8031 data handler. -/
structure AsmState where
  currentMessage : Str
  messageStarted : Bool
  timer : TimerState
deriving DecidableEq

/-- Fresh connection state. -/
def initState : AsmState := ⟨[], false, TimerState.off⟩

/-- `currentMessage.split('\r').filter(s => s.trim())`. -/
def segmentsOfCur (cur : Str) : List Str :=
  (splitSep '\r' cur).filter (fun s => !(jsTrim s).isEmpty)

/-- `segments.some(s => s.startsWith('OBX|'))`. -/
def hasOBX (cur : Str) : Bool :=
  (segmentsOfCur cur).any (fun s => "OBX|".toList.isPrefixOf s)

/-- `processCurrentMessage()`: emit the accumulation when one is started and
non-blank; always clear the pending timer. -/
def processCurrentMessage (s : AsmState) (tr : FlushTrigger) :
    AsmState × List (FlushTrigger × Str) :=
  if s.messageStarted = true ∧ jsTrim s.currentMessage ≠ [] then
    (⟨[], false, TimerState.off⟩, [(tr, s.currentMessage)])
  else ({ s with timer := TimerState.off }, [])

/-- An externally observable event of one connection: a line produced by the
data-handler's split (hence free of CR and LF), a timer firing, or the socket
close. -/
inductive AsmEvent where
  | line (l : Str)
  | longFire
  | shortFire
  | close

/-- The per-line body of the URIT-8031 data handler (`jsTrim l` is the
`trimmedLine` of the source). -/
def stepLine (s : AsmState) (l : Str) : AsmState × List (FlushTrigger × Str) :=
  if jsTrim l = [] then (s, [])
  else if jsTrim l = "∟".toList ∨ "♂".toList.isPrefixOf (jsTrim l) = true then
    processCurrentMessage s FlushTrigger.endToken
  else if "MSH|".toList.isPrefixOf (jsTrim l) = true then
    (⟨jsTrim l ++ ['\r'], true, TimerState.long⟩,
      (processCurrentMessage s FlushTrigger.newHeader).2)
  else if s.messageStarted = true ∧
      ("PID|".toList.isPrefixOf (jsTrim l) = true ∨ "OBR|".toList.isPrefixOf (jsTrim l) = true ∨
        "OBX|".toList.isPrefixOf (jsTrim l) = true) then
    if "OBX|".toList.isPrefixOf (jsTrim l) = true then
      ({ s with currentMessage := (s.currentMessage ++ jsTrim l ++ ['\r'])
                timer := TimerState.short }, [])
    else ({ s with currentMessage := (s.currentMessage ++ jsTrim l ++ ['\r']) }, [])
  else (s, [])

/-- One step of the assembler.  The 500 ms timeout flushes only an
accumulation with at least two segments including an OBX; the 100 ms
post-OBX timeout checks only the segment count; the close handler checks
both; the end token and a new header line flush unconditionally. -/
def step (s : AsmState) : AsmEvent → AsmState × List (FlushTrigger × Str)
  | AsmEvent.line l => stepLine s l
  | AsmEvent.longFire =>
    if s.timer = TimerState.long then
      if s.messageStarted = true ∧ jsTrim s.currentMessage ≠ [] ∧
          2 ≤ (segmentsOfCur s.currentMessage).length ∧ hasOBX s.currentMessage = true then
        processCurrentMessage { s with timer := TimerState.off } FlushTrigger.longTimer
      else ({ s with timer := TimerState.off }, [])
    else (s, [])
  | AsmEvent.shortFire =>
    if s.timer = TimerState.short then
      if s.messageStarted = true ∧ jsTrim s.currentMessage ≠ [] ∧
          2 ≤ (segmentsOfCur s.currentMessage).length then
        processCurrentMessage { s with timer := TimerState.off } FlushTrigger.shortTimer
      else ({ s with timer := TimerState.off }, [])
    else (s, [])
  | AsmEvent.close =>
    if s.messageStarted = true ∧ jsTrim s.currentMessage ≠ [] ∧
        2 ≤ (segmentsOfCur s.currentMessage).length ∧ hasOBX s.currentMessage = true then
      ({ s with timer := TimerState.off }, [(FlushTrigger.close, s.currentMessage)])
    else ({ s with timer := TimerState.off }, [])

/-- Run the assembler over a sequence of events, collecting emissions. -/
def run (s : AsmState) : List AsmEvent → AsmState × List (FlushTrigger × Str)
  | [] => (s, [])
  | e :: es =>
    let r1 := step s e
    let r2 := run r1.1 es
    (r2.1, r1.2 ++ r2.2)

end URIT8031

/-- Stored Record status lifecycle (`StoredMessage['status']`). -/
inductive MessageStatus where
  | pending
  | processing
  | completed
  | failed
deriving DecidableEq

/-- The durable partition (subdirectory) a record lives in. -/
inductive StoragePartition where
  | pending
  | completed
  | failed
deriving DecidableEq

/-- `RetryConfig` of `src/data-persistence.ts`. -/
structure RetryConfig where
  maxRetries : Nat
  retryDelayMs : Nat
  backoffMultiplier : Nat
deriving DecidableEq

/-- The constructor defaults: `maxRetries: 3, retryDelayMs: 5000,
backoffMultiplier: 2`. -/
def defaultRetryConfig : RetryConfig := ⟨3, 5000, 2⟩

/-- `StoredMessage` of `src/data-persistence.ts`; timestamps are
milliseconds. -/
structure StoredMessage where
  id : Str
  timestamp : Nat
  parsedMessage : HL7Message
  status : MessageStatus
  retryCount : Nat
  lastAttempt : Option Nat
  errorMessage : Option Str
  patientId : Str
  hemogramaData : Option RMap
deriving DecidableEq

/-- The backoff window
`retryDelayMs * Math.pow(backoffMultiplier, retryCount - 1)`: JS arithmetic
on these values is exact real arithmetic, modelled over ℚ with an integer
exponent (so `retryCount = 0` gives a fractional multiplier, as in JS). -/
def retryDelay (cfg : RetryConfig) (retryCount : Nat) : ℚ :=
  (cfg.retryDelayMs : ℚ) * (cfg.backoffMultiplier : ℚ) ^ ((retryCount : ℤ) - 1)

/-- The filter predicate of `getRetryableMessages`: failed, below the retry
cap, and past the backoff window since the last attempt (immediately eligible
when no attempt is recorded). -/
def isRetryable (cfg : RetryConfig) (now : Nat) (m : StoredMessage) : Bool :=
  if m.status ≠ MessageStatus.failed ∨ cfg.maxRetries ≤ m.retryCount then false
  else
    match m.lastAttempt with
    | some t => decide (retryDelay cfg m.retryCount ≤ (now : ℚ) - (t : ℚ))
    | none => true

/-- `getPendingMessages`: the pending partition sorted by creation timestamp
(the JS engine's sort is modelled by insertion sort; the claims below depend
only on membership, which any sort preserves). -/
def getPendingMessages (store : List StoredMessage) : List StoredMessage :=
  store.insertionSort (fun a b => a.timestamp ≤ b.timestamp)

/-- `getRetryableMessages` over the pending partition at time `now`. -/
def getRetryableMessages (cfg : RetryConfig) (now : Nat)
    (store : List StoredMessage) : List StoredMessage :=
  (getPendingMessages store).filter (isRetryable cfg now)

/-- `updateMessageStatus(id, status, error?)`, modelled on its successful
path: the record is read from the pending partition (a record elsewhere makes
the read throw and the error propagate).  Stamps the attempt time, records a
non-empty error text, increments `retryCount` exactly on transition into
`processing`, and returns the updated record together with the partition it
is written to: `completed` on completion, terminal `failed` once
`retryCount ≥ maxRetries`, otherwise back to `pending`. -/
def updateMessageStatus (cfg : RetryConfig) (now : Nat) (m : StoredMessage)
    (status : MessageStatus) (errorMessage : Option Str) :
    StoredMessage × StoragePartition :=
  let m1 : StoredMessage :=
    { m with
      status := status
      lastAttempt := some now
      errorMessage :=
        match errorMessage with
        | some e => if e ≠ [] then some e else m.errorMessage
        | none => m.errorMessage
      retryCount :=
        if status = MessageStatus.processing then m.retryCount + 1 else m.retryCount }
  let target : StoragePartition :=
    match status with
    | MessageStatus.completed => StoragePartition.completed
    | MessageStatus.failed =>
      if cfg.maxRetries ≤ m1.retryCount then StoragePartition.failed
      else StoragePartition.pending
    | _ => StoragePartition.pending
  (m1, target)

/-- The outcome of one Result Sink submission (login + form fill), abstracted:
it either succeeds or fails with an error text. -/
inductive SinkResult where
  | ok
  | fail (errorMessage : Str)

/-- The error text thrown by `processRetry` on an empty canonical map. -/
def noHemogramaMsg : Str := "No hemograma data found in message".toList

/-- The canonical result map `processRetry` works with: the stored
`hemogramaData` if present, else extracted afresh from the stored parsed
message. -/
def deriveHemogramaData (m : StoredMessage) : RMap :=
  match m.hemogramaData with
  | some h => h
  | none => extractHemogramaData m.parsedMessage.obx

/-- `RetryProcessor.processRetry`, as the ordered list of
`updateMessageStatus(id, status, error?)` calls it performs: first
`processing`; then, if the canonical map is empty, `failed` with the
explanatory message (the throw lands in the catch block); otherwise
`completed` on sink success or `failed` with the sink's error. -/
def processRetry (m : StoredMessage) (sink : SinkResult) :
    List (MessageStatus × Option Str) :=
  (MessageStatus.processing, none) ::
    (if deriveHemogramaData m = [] then
      [(MessageStatus.failed, some noHemogramaMsg)]
    else
      match sink with
      | SinkResult.ok => [(MessageStatus.completed, none)]
      | SinkResult.fail e => [(MessageStatus.failed, some e)])

/-- `pid?.sampleId || obr?.universalServiceId || 'UNKNOWN'` of
`IntegratedServer.processHemogramaMessage`. -/
def sampleIdOf (message : HL7Message) : Str :=
  let fromObr :=
    match message.obr with
    | some o => if o.universalServiceId ≠ [] then o.universalServiceId else "UNKNOWN".toList
    | none => "UNKNOWN".toList
  match message.pid with
  | some p => if p.sampleId ≠ [] then p.sampleId else fromObr
  | none => fromObr

/-- `IntegratedServer.processHemogramaMessage` up to the submission call:
`none` models the early `return` taken when the extracted canonical map is
empty (the message is dropped with only a log line); `some` carries the
patient data handed to the Result Sink. -/
def processHemogramaMessage (message : HL7Message) : Option (Str × RMap) :=
  let hemogramaData := extractHemogramaData message.obx
  if hemogramaData = [] then none
  else some (sampleIdOf message, hemogramaData)

theorem rmSet_ne_nil (m : RMap) (k v : Str) : rmSet m k v ≠ [] := by
  cases m with
  | nil => simp [rmSet]
  | cons p rest =>
    obtain ⟨ka, va⟩ := p
    rw [rmSet]
    split <;> simp

/-- Reading after a property write. -/
theorem rmGet_rmSet (m : RMap) (k k2 v : Str) :
    rmGet (rmSet m k v) k2 = if k = k2 then some v else rmGet m k2 := by
  induction m with
  | nil => by_cases h : k = k2 <;> simp [rmSet, rmGet, h]
  | cons p rest ih =>
    obtain ⟨ka, va⟩ := p
    rw [rmSet]
    by_cases ha : ka = k
    · rw [if_pos ha]
      subst ha
      by_cases hk : ka = k2
      · rw [rmGet, if_pos hk, if_pos hk]
      · rw [rmGet, if_neg hk, if_neg hk, rmGet, if_neg hk]
    · rw [if_neg ha, rmGet]
      by_cases hb : ka = k2
      · have : ¬ k = k2 := fun h => ha (h ▸ hb)
        rw [if_pos hb, if_neg this, rmGet, if_pos hb]
      · rw [if_neg hb, ih, rmGet, if_neg hb]

/-- An observation writes the canonical key `k` exactly when it is numeric,
non-empty and its vendor code maps to `k` in the Family-A table. -/
def writesKey (obx : OBXSegment) (k : Str) : Prop :=
  obx.valueType = "NM".toList ∧ obx.observationValue ≠ [] ∧
  rmGet hemogramaParameterMapping obx.observationIdentifier = some k

theorem hemogramaStep_ne_nil (acc : RMap) (obx : OBXSegment) (h : acc ≠ []) :
    hemogramaStep acc obx ≠ [] := by
  rw [hemogramaStep]
  split
  · split
    · split
      · exact rmSet_ne_nil _ _ _
      · exact rmSet_ne_nil _ _ _
    · exact h
  · exact h

theorem hemogramaStep_isSome (acc : RMap) (obx : OBXSegment) (k : Str)
    (h : (rmGet acc k).isSome = true) :
    (rmGet (hemogramaStep acc obx) k).isSome = true := by
  rw [hemogramaStep]
  split
  · split
    · split <;>
      · rw [rmGet_rmSet]
        split
        · rfl
        · exact h
    · exact h
  · exact h

theorem hemogramaStep_not_writes (acc : RMap) (obx : OBXSegment) (k : Str)
    (h : ¬ writesKey obx k) :
    rmGet (hemogramaStep acc obx) k = rmGet acc k := by
  rw [hemogramaStep]
  split
  · rename_i hnm
    split
    · rename_i code hcode
      have hne : ¬ code = k := by
        intro hk
        exact h ⟨hnm.1, hnm.2, hk ▸ hcode⟩
      split <;> rw [rmGet_rmSet, if_neg hne]
    · rfl
  · rfl

theorem foldl_hemogramaStep_ne_nil (obxs : List OBXSegment) (acc : RMap) (h : acc ≠ []) :
    obxs.foldl hemogramaStep acc ≠ [] := by
  induction obxs generalizing acc with
  | nil => exact h
  | cons o rest ih => exact ih (hemogramaStep acc o) (hemogramaStep_ne_nil acc o h)

theorem foldl_hemogramaStep_isSome (obxs : List OBXSegment) (acc : RMap) (k : Str)
    (h : (rmGet acc k).isSome = true) :
    (rmGet (obxs.foldl hemogramaStep acc) k).isSome = true := by
  induction obxs generalizing acc with
  | nil => exact h
  | cons o rest ih => exact ih (hemogramaStep acc o) (hemogramaStep_isSome acc o k h)

theorem foldl_hemogramaStep_not_writes (obxs : List OBXSegment) (acc : RMap) (k : Str)
    (h : ∀ obx ∈ obxs, ¬ writesKey obx k) :
    rmGet (obxs.foldl hemogramaStep acc) k = rmGet acc k := by
  induction obxs generalizing acc with
  | nil => rfl
  | cons o rest ih =>
    rw [List.foldl_cons, ih (hemogramaStep acc o) (fun obx hm => h obx (List.mem_cons_of_mem o hm)),
      hemogramaStep_not_writes acc o k (h o (List.mem_cons_self o rest))]

/-- The Family-A canonical map is never empty. -/
theorem extractHemogramaData_ne_nil (obxs : List OBXSegment) :
    extractHemogramaData obxs ≠ [] :=
  foldl_hemogramaStep_ne_nil obxs hemogramaSeed (by decide)

/-- C1: for every parsed message whose derived canonical result map is empty,
the processing path marks the Stored Record failed with an explanatory error
message, never marks it completed, and never drops it silently.  In the live
ingestion path the Family-A map is never empty (it is pre-seeded), so the
early-return branch of `processHemogramaMessage` is unreachable; in the retry
path an empty derived map makes `processRetry` record exactly a `processing`
update followed by a `failed` update carrying the explanatory text, and no
`completed` update occurs. -/
theorem C1_empty_map_marks_failed :
    (∀ message : HL7Message, processHemogramaMessage message ≠ none) ∧
    (∀ (m : StoredMessage) (sink : SinkResult), deriveHemogramaData m = [] →
      processRetry m sink =
          [(MessageStatus.processing, none), (MessageStatus.failed, some noHemogramaMsg)] ∧
        ∀ u ∈ processRetry m sink, u.1 ≠ MessageStatus.completed) := by
  constructor
  · intro message
    rw [processHemogramaMessage]
    simp only [ne_eq]
    rw [if_neg (extractHemogramaData_ne_nil message.obx)]
    simp
  · intro m sink h
    have heq : processRetry m sink =
        [(MessageStatus.processing, none), (MessageStatus.failed, some noHemogramaMsg)] := by
      unfold processRetry
      rw [if_pos h]
    refine ⟨heq, ?_⟩
    intro u hu
    rw [heq] at hu
    rcases List.mem_cons.mp hu with rfl | hu2
    · decide
    · rcases List.mem_singleton.mp hu2 with rfl
      decide

/-- Witness for C1: a stored record whose persisted canonical map is empty is
updated to `processing` and then `failed` with the explanatory message. -/
theorem C1_witness :
    processRetry
        { id := "w1".toList, timestamp := 0, parsedMessage := emptyHL7,
          status := MessageStatus.failed, retryCount := 1, lastAttempt := some 0,
          errorMessage := none, patientId := "123".toList, hemogramaData := some [] }
        SinkResult.ok =
      [(MessageStatus.processing, none), (MessageStatus.failed, some noHemogramaMsg)] := by
  refine (C1_empty_map_marks_failed.2 _ SinkResult.ok ?_).1
  rfl

/-- C10: the Family-A mapper pre-seeds the eight canonical keys BTN01, LAT01,
ERITR, PRO01, MIE01, MTM01, BLAST and CELAT with the "not measured" sentinel
"0.0"; each stays bound (to "0.0" when no observation overwrites it), so the
Family-A canonical result map is never empty. -/
theorem C10_preseeded_keys :
    (∀ (obxs : List OBXSegment) (k : Str), k ∈ hemogramaSeedKeys →
      (rmGet (extractHemogramaData obxs) k).isSome = true ∧
      ((∀ obx ∈ obxs, ¬ writesKey obx k) →
        rmGet (extractHemogramaData obxs) k = some ("0.0".toList))) ∧
    (∀ obxs : List OBXSegment, extractHemogramaData obxs ≠ []) := by
  constructor
  · intro obxs k hk
    have hseed : rmGet hemogramaSeed k = some ("0.0".toList) := by
      fin_cases hk <;> decide
    constructor
    · rw [extractHemogramaData]
      exact foldl_hemogramaStep_isSome obxs hemogramaSeed k (by rw [hseed]; rfl)
    · intro hw
      rw [extractHemogramaData, foldl_hemogramaStep_not_writes obxs hemogramaSeed k hw, hseed]
  · exact extractHemogramaData_ne_nil

/-- Witness for C10: with no observations at all, the pre-seeded key BTN01 is
bound to the sentinel. -/
theorem C10_witness :
    rmGet (extractHemogramaData []) ("BTN01".toList) = some ("0.0".toList) :=
  (C10_preseeded_keys.1 [] ("BTN01".toList) (by decide)).2 (by intro obx h; cases h)

/-- C7: under the Family-B (URIT-8031) layout the OBX parameter code is read
from field position 4 and the sub-id/sequence from field position 3, and
parsing the scenario segment
`OBX|1|NM|1|GLI|111|mg/dL|65-99|N|||F||0.2441|2025-08-09||Admin||` then
mapping it yields a canonical map binding GLI01 to "111". -/
theorem C7_familyB_obx_layout :
    (∀ fields : List Str,
      (URIT8031.parseOBX fields).observationIdentifier = fieldAt fields 4 ∧
      (URIT8031.parseOBX fields).observationSubId = fieldAt fields 3) ∧
    rmGet
        (extractBiochemistryData
          [URIT8031.parseOBX (splitSep '|'
            ("OBX|1|NM|1|GLI|111|mg/dL|65-99|N|||F||0.2441|2025-08-09||Admin||".toList))])
        ("GLI01".toList) = some ("111".toList) :=
  ⟨fun _ => ⟨rfl, rfl⟩, by decide⟩

/-- C8: a numeric observation whose Family-A vendor code maps to the leukocyte
or platelet canonical code is stored as its value times 1000 rendered with no
decimal places, and `OBX|1|NM|WBC||8.21|10^9/L|4.00-10.00|N|||F||` yields the
leukocyte key bound to "8210". -/
theorem C8_scale_rule :
    (∀ (obx : OBXSegment) (q : ℚ) (c : Str),
      obx.valueType = "NM".toList → obx.observationValue ≠ [] →
      rmGet hemogramaParameterMapping obx.observationIdentifier = some c →
      (c = "PTL01".toList ∨ c = "LEU01".toList) →
      parseDecimal obx.observationValue = some q →
      rmGet (extractHemogramaData [obx]) c = some (toFixed0 (q * 1000))) ∧
    rmGet
        (extractHemogramaData
          [URIT5160.parseOBX (splitSep '|'
            ("OBX|1|NM|WBC||8.21|10^9/L|4.00-10.00|N|||F||".toList))])
        ("LEU01".toList) = some ("8210".toList) := by
  have hgen : ∀ (obx : OBXSegment) (q : ℚ) (c : Str),
      obx.valueType = "NM".toList → obx.observationValue ≠ [] →
      rmGet hemogramaParameterMapping obx.observationIdentifier = some c →
      (c = "PTL01".toList ∨ c = "LEU01".toList) →
      parseDecimal obx.observationValue = some q →
      rmGet (extractHemogramaData [obx]) c = some (toFixed0 (q * 1000)) := by
    intro obx q c h1 h2 h3 h4 h5
    rw [extractHemogramaData, List.foldl_cons, List.foldl_nil]
    unfold hemogramaStep
    rw [if_pos ⟨h1, h2⟩, h3]
    dsimp only
    rw [if_pos h4, rmGet_rmSet, if_pos rfl]
    unfold numTimes1000Fixed0
    rw [h5]
  refine ⟨hgen, ?_⟩
  have hq : parseDecimal ("8.21".toList) = some (821/100) := by
    rw [parseDecimal_pair ("8".toList) ("21".toList) _ (by decide) (by decide)]
    norm_num [show digitsToNat ['8'] = 8 from by decide,
      show digitsToNat ['2', '1'] = 21 from by decide]
  have hval : (URIT5160.parseOBX (splitSep '|'
      ("OBX|1|NM|WBC||8.21|10^9/L|4.00-10.00|N|||F||".toList))).observationValue
      = "8.21".toList := by decide
  have h := hgen
    (URIT5160.parseOBX (splitSep '|' ("OBX|1|NM|WBC||8.21|10^9/L|4.00-10.00|N|||F||".toList)))
    (821/100) ("LEU01".toList) (by decide) (by decide) (by decide) (Or.inr rfl)
    (by rw [hval]; exact hq)
  rw [h]
  have hf : toFixed0 ((821/100 : ℚ) * 1000) = "8210".toList := by
    rw [toFixed0, show Int.floor ((821/100 : ℚ) * 1000 + 1/2) = 8210 from by
      rw [Int.floor_eq_iff]; norm_num]
    decide
  rw [hf]

/-- Witness for C8 at the scenario observation. -/
theorem C8_witness :
    rmGet
        (extractHemogramaData
          [OBXSegment.mk ("1".toList) ("NM".toList) ("WBC".toList) []
            ("8.21".toList) ("10^9/L".toList) ("4.00-10.00".toList)
            ("N".toList) ("F".toList)])
        ("LEU01".toList) = some (toFixed0 ((821/100 : ℚ) * 1000)) := by
  refine C8_scale_rule.1
    (OBXSegment.mk ("1".toList) ("NM".toList) ("WBC".toList) []
      ("8.21".toList) ("10^9/L".toList) ("4.00-10.00".toList)
      ("N".toList) ("F".toList))
    (821/100) ("LEU01".toList) rfl (by decide) (by decide) (Or.inr rfl) ?_
  show parseDecimal ("8.21".toList) = some (821/100)
  rw [parseDecimal_pair ("8".toList) ("21".toList) _ (by decide) (by decide)]
  norm_num [show digitsToNat ['8'] = 8 from by decide,
    show digitsToNat ['2', '1'] = 21 from by decide]

/-- The retry filter holds exactly on failed, below-cap records past their
backoff window, provided an attempt time is recorded (as every failed record
has, since `updateMessageStatus` always stamps one). -/
theorem isRetryable_eq_true_iff (cfg : RetryConfig) (now : Nat) (m : StoredMessage)
    (hm : m.lastAttempt.isSome = true) :
    isRetryable cfg now m = true ↔
      m.status = MessageStatus.failed ∧ m.retryCount < cfg.maxRetries ∧
        ∃ t, m.lastAttempt = some t ∧ retryDelay cfg m.retryCount ≤ (now : ℚ) - (t : ℚ) := by
  obtain ⟨t, ht⟩ := Option.isSome_iff_exists.mp hm
  rw [isRetryable, ht]
  by_cases h1 : m.status ≠ MessageStatus.failed ∨ cfg.maxRetries ≤ m.retryCount
  · rw [if_pos h1]
    simp only [Bool.false_eq_true, false_iff]
    intro ⟨hst, hcnt, _⟩
    rcases h1 with h1 | h1
    · exact h1 hst
    · omega
  · rw [if_neg h1]
    push_neg at h1
    dsimp only
    rw [decide_eq_true_eq]
    constructor
    · intro hle
      exact ⟨h1.1, by omega, t, rfl, hle⟩
    · intro ⟨_, _, t2, ht2, hle⟩
      injection ht2 with h
      rw [← h] at hle
      exact hle

/-- C2: `getRetryableMessages()` returns exactly the stored records that are
failed, strictly below the retry cap, and past the backoff window
`retryDelayMs * backoffMultiplier^(retryCount-1)` since their last attempt
(over stores whose records carry an attempt stamp, as every failed record
does); in particular no failed record with `retryCount = maxRetries` is ever
returned. -/
theorem C2_getRetryable_exact (cfg : RetryConfig) (now : Nat)
    (store : List StoredMessage) (hall : ∀ m ∈ store, m.lastAttempt.isSome = true) :
    (∀ m : StoredMessage,
      m ∈ getRetryableMessages cfg now store ↔
        m ∈ store ∧ m.status = MessageStatus.failed ∧ m.retryCount < cfg.maxRetries ∧
          ∃ t, m.lastAttempt = some t ∧
            retryDelay cfg m.retryCount ≤ (now : ℚ) - (t : ℚ)) ∧
    (∀ m : StoredMessage, m.status = MessageStatus.failed →
      m.retryCount = cfg.maxRetries → m ∉ getRetryableMessages cfg now store) := by
  have hmemsort : ∀ m : StoredMessage, m ∈ getPendingMessages store ↔ m ∈ store := by
    intro m
    exact (List.perm_insertionSort (fun a b => a.timestamp ≤ b.timestamp) store).mem_iff
  have hmain : ∀ m : StoredMessage,
      m ∈ getRetryableMessages cfg now store ↔
        m ∈ store ∧ m.status = MessageStatus.failed ∧ m.retryCount < cfg.maxRetries ∧
          ∃ t, m.lastAttempt = some t ∧
            retryDelay cfg m.retryCount ≤ (now : ℚ) - (t : ℚ) := by
    intro m
    rw [getRetryableMessages, List.mem_filter, hmemsort]
    constructor
    · intro ⟨hmem, hfil⟩
      exact ⟨hmem, ((isRetryable_eq_true_iff cfg now m (hall m hmem)).mp hfil)⟩
    · intro ⟨hmem, hrest⟩
      exact ⟨hmem, (isRetryable_eq_true_iff cfg now m (hall m hmem)).mpr hrest⟩
  refine ⟨hmain, ?_⟩
  intro m hst hcnt hmem
  obtain ⟨-, -, hlt, -⟩ := (hmain m).mp hmem
  omega

/-- Witness for C2: at 6000 ms, a failed record with one attempt at 0 ms is
returned (its 5000 ms window has passed) and a failed record already at the
retry cap is not. -/
theorem C2_witness :
    (StoredMessage.mk ("a".toList) 0 emptyHL7 MessageStatus.failed 1 (some 0) none
        ("p".toList) none) ∈
      getRetryableMessages defaultRetryConfig 6000
        [StoredMessage.mk ("a".toList) 0 emptyHL7 MessageStatus.failed 1 (some 0) none
          ("p".toList) none,
         StoredMessage.mk ("b".toList) 1 emptyHL7 MessageStatus.failed 3 (some 0) none
          ("p".toList) none] ∧
    (StoredMessage.mk ("b".toList) 1 emptyHL7 MessageStatus.failed 3 (some 0) none
        ("p".toList) none) ∉
      getRetryableMessages defaultRetryConfig 6000
        [StoredMessage.mk ("a".toList) 0 emptyHL7 MessageStatus.failed 1 (some 0) none
          ("p".toList) none,
         StoredMessage.mk ("b".toList) 1 emptyHL7 MessageStatus.failed 3 (some 0) none
          ("p".toList) none] := by
  have hc := C2_getRetryable_exact defaultRetryConfig 6000
    [StoredMessage.mk ("a".toList) 0 emptyHL7 MessageStatus.failed 1 (some 0) none
      ("p".toList) none,
     StoredMessage.mk ("b".toList) 1 emptyHL7 MessageStatus.failed 3 (some 0) none
      ("p".toList) none] (by decide)
  refine ⟨(hc.1 _).mpr ⟨by decide, rfl, by decide, 0, rfl, ?_⟩, hc.2 _ rfl rfl⟩
  norm_num [retryDelay, defaultRetryConfig]

/-- Evaluation form of the retry filter on a failed, below-cap record with a
recorded attempt at `t`. -/
theorem isRetryable_eval (cfg : RetryConfig) (now : Nat) (m : StoredMessage) (t rc : Nat)
    (hst : m.status = MessageStatus.failed) (hrc : m.retryCount = rc)
    (hcnt : rc < cfg.maxRetries) (hla : m.lastAttempt = some t) :
    isRetryable cfg now m = decide (retryDelay cfg rc ≤ (now : ℚ) - (t : ℚ)) := by
  rw [isRetryable, hla]
  rw [if_neg (by simp [hst, hrc]; omega)]
  dsimp only
  rw [hrc]

/-- A fresh pending record at time 0 (Scenario 4 of the spec). -/
def scenarioRec0 : StoredMessage :=
  StoredMessage.mk ("s4".toList) 0 emptyHL7 MessageStatus.pending 0 none none
    ("p".toList) none

/-- First attempt claimed at t = 0. -/
def scenarioStep1 : StoredMessage × StoragePartition :=
  updateMessageStatus defaultRetryConfig 0 scenarioRec0 MessageStatus.processing none

/-- First attempt fails at t = 0. -/
def scenarioStep2 : StoredMessage × StoragePartition :=
  updateMessageStatus defaultRetryConfig 0 scenarioStep1.1 MessageStatus.failed
    (some ("submission failed".toList))

/-- Second attempt claimed at t = 5000. -/
def scenarioStep3 : StoredMessage × StoragePartition :=
  updateMessageStatus defaultRetryConfig 5000 scenarioStep2.1 MessageStatus.processing none

/-- Second attempt fails at t = 5000. -/
def scenarioStep4 : StoredMessage × StoragePartition :=
  updateMessageStatus defaultRetryConfig 5000 scenarioStep3.1 MessageStatus.failed
    (some ("submission failed".toList))

/-- Third attempt claimed at t = 15000. -/
def scenarioStep5 : StoredMessage × StoragePartition :=
  updateMessageStatus defaultRetryConfig 15000 scenarioStep4.1 MessageStatus.processing none

/-- Third attempt fails at t = 15000. -/
def scenarioStep6 : StoredMessage × StoragePartition :=
  updateMessageStatus defaultRetryConfig 15000 scenarioStep5.1 MessageStatus.failed
    (some ("submission failed".toList))

/-- C6: `updateMessageStatus` stamps the attempt time, increments retryCount
exactly on transition into `processing`, relocates to the completed partition
exactly on `completed`, to the terminally-failed partition exactly on
`failed` with `retryCount ≥ maxRetries`, and otherwise keeps the record in
the pending partition; and under the default policy (5000 ms, ×2, 3 tries) a
record failing at t=0 becomes retry-eligible only at t ≥ 5000 (retryCount 1),
after its second failure at t=5000 only at t ≥ 15000 (retryCount 2), and is
relocated to the terminally-failed partition after its third failed attempt. -/
theorem C6_updateStatus_lifecycle :
    (∀ (cfg : RetryConfig) (now : Nat) (m : StoredMessage) (st : MessageStatus)
        (err : Option Str),
      (updateMessageStatus cfg now m st err).1.lastAttempt = some now ∧
      (updateMessageStatus cfg now m st err).1.retryCount =
        m.retryCount + (if st = MessageStatus.processing then 1 else 0) ∧
      ((updateMessageStatus cfg now m st err).2 = StoragePartition.completed ↔
        st = MessageStatus.completed) ∧
      ((updateMessageStatus cfg now m st err).2 = StoragePartition.failed ↔
        st = MessageStatus.failed ∧ cfg.maxRetries ≤ m.retryCount)) ∧
    (scenarioStep2.2 = StoragePartition.pending ∧ scenarioStep2.1.retryCount = 1 ∧
      isRetryable defaultRetryConfig 4999 scenarioStep2.1 = false ∧
      isRetryable defaultRetryConfig 5000 scenarioStep2.1 = true ∧
      scenarioStep4.2 = StoragePartition.pending ∧ scenarioStep4.1.retryCount = 2 ∧
      isRetryable defaultRetryConfig 14999 scenarioStep4.1 = false ∧
      isRetryable defaultRetryConfig 15000 scenarioStep4.1 = true ∧
      scenarioStep6.2 = StoragePartition.failed ∧ scenarioStep6.1.retryCount = 3) := by
  constructor
  · intro cfg now m st err
    refine ⟨rfl, ?_, ?_, ?_⟩
    · cases st <;> simp [updateMessageStatus]
    · cases st <;> simp [updateMessageStatus] <;> try (split_ifs <;> simp_all)
    · cases st <;> simp [updateMessageStatus] <;> try (split_ifs <;> simp_all)
  · refine ⟨by decide, by decide, ?_, ?_, by decide, by decide, ?_, ?_, by decide, by decide⟩
    · rw [isRetryable_eval defaultRetryConfig 4999 scenarioStep2.1 0 1 (by decide) (by decide)
        (by decide) (by decide)]
      simp only [decide_eq_false_iff_not, not_le]
      norm_num [retryDelay, defaultRetryConfig]
    · rw [isRetryable_eval defaultRetryConfig 5000 scenarioStep2.1 0 1 (by decide) (by decide)
        (by decide) (by decide)]
      simp only [decide_eq_true_eq]
      norm_num [retryDelay, defaultRetryConfig]
    · rw [isRetryable_eval defaultRetryConfig 14999 scenarioStep4.1 5000 2 (by decide) (by decide)
        (by decide) (by decide)]
      simp only [decide_eq_false_iff_not, not_le]
      norm_num [retryDelay, defaultRetryConfig]
    · rw [isRetryable_eval defaultRetryConfig 15000 scenarioStep4.1 5000 2 (by decide) (by decide)
        (by decide) (by decide)]
      simp only [decide_eq_true_eq]
      norm_num [retryDelay, defaultRetryConfig]

theorem splitSep_no_sep (sep : Char) (a : Str) (ha : sep ∉ a) : splitSep sep a = [a] := by
  induction a with
  | nil => rfl
  | cons c rest ih =>
    rw [splitSep,
      if_neg (fun h => ha (by rw [← h]; exact List.mem_cons_self c rest))]
    rw [ih (fun h => ha (List.mem_cons_of_mem c h))]

theorem splitSep_append (sep : Char) (a b : Str) (ha : sep ∉ a) :
    splitSep sep (a ++ sep :: b) = a :: splitSep sep b := by
  induction a with
  | nil => simp [splitSep]
  | cons c rest ih =>
    rw [List.cons_append, splitSep,
      if_neg (fun h => ha (by rw [← h]; exact List.mem_cons_self c rest))]
    rw [ih (fun h => ha (List.mem_cons_of_mem c h))]

theorem splitSep_ne_nil (sep : Char) (a : Str) : splitSep sep a ≠ [] := by
  cases a with
  | nil => simp [splitSep]
  | cons c rest =>
    rw [splitSep]
    split
    · simp
    · split
      · simp
      · simp


theorem lineSplit_cr (rest : Str) (h : rest.head? ≠ some '\n') :
    lineSplit ('\r' :: rest) = [] :: lineSplit rest := by
  cases rest with
  | nil => rfl
  | cons d tail =>
    have hd : d ≠ '\n' := by intro hh; exact h (by rw [hh]; rfl)
    conv_lhs => rw [lineSplit.eq_def]
    simp [hd]

theorem lineSplit_cons_other (c : Char) (rest f : Str) (fs : List Str)
    (hc1 : c ≠ '\r') (hc2 : c ≠ '\n') (h : lineSplit rest = f :: fs) :
    lineSplit (c :: rest) = (c :: f) :: fs := by
  conv_lhs => rw [lineSplit.eq_def]
  simp [hc1, hc2, h]

theorem lineSplit_append_cr (a rest : Str) (ha : ∀ c ∈ a, c ≠ '\r' ∧ c ≠ '\n')
    (hrest : rest.head? ≠ some '\n') :
    lineSplit (a ++ '\r' :: rest) = a :: lineSplit rest := by
  induction a with
  | nil => rw [List.nil_append, lineSplit_cr rest hrest]
  | cons c ctail ih =>
    have hc := ha c (List.mem_cons_self c ctail)
    rw [List.cons_append]
    rw [lineSplit_cons_other c (ctail ++ '\r' :: rest) ctail (lineSplit rest) hc.1 hc.2
      (ih (fun d hd => ha d (List.mem_cons_of_mem c hd)))]

theorem mem_dropWhile_of_mem (p : Char → Bool) (l : Str) (c : Char)
    (hc : c ∈ l) (hp : p c = false) : c ∈ l.dropWhile p := by
  induction l with
  | nil => cases hc
  | cons d tail ih =>
    rw [List.dropWhile_cons]
    by_cases hd : p d = true
    · rw [if_pos hd]
      rcases List.mem_cons.mp hc with rfl | hcc
      · rw [hp] at hd; exact absurd hd (by decide)
      · exact ih hcc
    · rw [if_neg hd]
      exact hc

theorem jsTrim_ne_nil (s : Str) (c : Char) (hc : c ∈ s) (hsp : jsSpace c = false) :
    jsTrim s ≠ [] := by
  rw [jsTrim]
  intro h
  have h2 : (s.dropWhile jsSpace).reverse.dropWhile jsSpace = [] :=
    List.reverse_eq_nil_iff.mp h
  have h3 := List.dropWhile_eq_nil_iff.mp h2
  have hcin : c ∈ (s.dropWhile jsSpace).reverse :=
    List.mem_reverse.mpr (mem_dropWhile_of_mem jsSpace s c hc hsp)
  have := h3 c hcin
  rw [hsp] at this
  exact Bool.false_ne_true this

theorem applySegment_skip (pid : List Str → PIDSegment) (obx : List Str → OBXSegment)
    (m : HL7Message) (seg a : Str) (fs : List Str)
    (hsplit : splitSep '|' seg = a :: fs)
    (h : a ≠ "MSH".toList ∧ a ≠ "PID".toList ∧ a ≠ "PV1".toList ∧ a ≠ "OBR".toList ∧
      a ≠ "OBX".toList ∧ a ≠ "MSA".toList ∧ a ≠ "ERR".toList) :
    applySegment pid obx m seg = m := by
  unfold applySegment
  rw [hsplit]
  simp only [List.headD_cons]
  rw [if_neg h.1, if_neg h.2.1, if_neg h.2.2.1, if_neg h.2.2.2.1, if_neg h.2.2.2.2.1,
    if_neg h.2.2.2.2.2.1, if_neg h.2.2.2.2.2.2]

theorem applySegment_msa (pid : List Str → PIDSegment) (obx : List Str → OBXSegment)
    (m : HL7Message) (seg : Str) (fs : List Str)
    (hsplit : splitSep '|' seg = "MSA".toList :: fs) :
    applySegment pid obx m seg = { m with msa := some (parseMSA ("MSA".toList :: fs)) } := by
  unfold applySegment
  rw [hsplit]
  simp only [List.headD_cons]
  rw [if_neg (by decide), if_neg (by decide), if_neg (by decide), if_neg (by decide),
    if_neg (by decide)]
  simp

/-- C9: encoding a positive acknowledgment for any control id and parsing the
produced text yields an MSA segment with acknowledgment code "AA" and that
control id.  Control ids (and the interpolated date/ack texts) are segment
field values, hence free of the segment separators CR and LF, and a field
value is free of the field separator `|`. -/
theorem C9_ack_roundtrip (dateStr ackNum X : Str)
    (hdate : ∀ c ∈ dateStr, c ≠ '\r' ∧ c ≠ '\n')
    (hack : ∀ c ∈ ackNum, c ≠ '\r' ∧ c ≠ '\n')
    (hX : ∀ c ∈ X, c ≠ '\r' ∧ c ≠ '\n' ∧ c ≠ '|') :
    (URIT5160.parseHL7Message (URIT5160.createAcknowledgment dateStr ackNum X)).msa =
      some (MSASegment.mk ("AA".toList) X [] []) := by
  have hfull : URIT5160.createAcknowledgment dateStr ackNum X =
      ([SB] ++ "MSH|^~\\&|LIS|PC|URIT|UT-5160|".toList ++ dateStr
          ++ "||ACK^R01|ACK".toList ++ ackNum ++ "|P|2.3.1||||||UNICODE".toList)
        ++ '\r' :: (("MSA|AA|".toList ++ X) ++ '\r' :: [FS, '\r']) := by
    simp [URIT5160.createAcknowledgment, List.append_assoc]
  have hl1chars : ∀ c ∈ ([SB] ++ "MSH|^~\\&|LIS|PC|URIT|UT-5160|".toList ++ dateStr
      ++ "||ACK^R01|ACK".toList ++ ackNum ++ "|P|2.3.1||||||UNICODE".toList),
      c ≠ '\r' ∧ c ≠ '\n' := by
    intro c hc
    simp only [List.mem_append] at hc
    rcases hc with ((((hc | hc) | hc) | hc) | hc) | hc
    · exact (by decide : ∀ x ∈ ([SB] : Str), x ≠ '\r' ∧ x ≠ '\n') c hc
    · exact (by decide :
        ∀ x ∈ ("MSH|^~\\&|LIS|PC|URIT|UT-5160|".toList : Str), x ≠ '\r' ∧ x ≠ '\n') c hc
    · exact hdate c hc
    · exact (by decide : ∀ x ∈ ("||ACK^R01|ACK".toList : Str), x ≠ '\r' ∧ x ≠ '\n') c hc
    · exact hack c hc
    · exact (by decide :
        ∀ x ∈ ("|P|2.3.1||||||UNICODE".toList : Str), x ≠ '\r' ∧ x ≠ '\n') c hc
  have hl2chars : ∀ c ∈ ("MSA|AA|".toList ++ X), c ≠ '\r' ∧ c ≠ '\n' := by
    intro c hc
    rcases List.mem_append.mp hc with hc2 | hc2
    · exact (by decide : ∀ x ∈ ("MSA|AA|".toList : Str), x ≠ '\r' ∧ x ≠ '\n') c hc2
    · exact ⟨(hX c hc2).1, (hX c hc2).2.1⟩
  have hD : ("MSA|AA|".toList : Str) = 'M' :: "SA|AA|".toList := by decide
  have hhead2 : ((("MSA|AA|".toList ++ X) ++ '\r' :: [FS, '\r'])).head? ≠ some '\n' := by
    rw [hD]
    simp
  have hlines : lineSplit (URIT5160.createAcknowledgment dateStr ackNum X) =
      ([SB] ++ "MSH|^~\\&|LIS|PC|URIT|UT-5160|".toList ++ dateStr
          ++ "||ACK^R01|ACK".toList ++ ackNum ++ "|P|2.3.1||||||UNICODE".toList)
        :: ("MSA|AA|".toList ++ X) :: [[FS], []] := by
    rw [hfull]
    rw [lineSplit_append_cr _ _ hl1chars hhead2]
    rw [lineSplit_append_cr _ _ hl2chars (by decide)]
    rw [show lineSplit [FS, '\r'] = [[FS], []] from by decide]
  have e1 : (!(jsTrim ([SB] ++ "MSH|^~\\&|LIS|PC|URIT|UT-5160|".toList ++ dateStr
      ++ "||ACK^R01|ACK".toList ++ ackNum ++ "|P|2.3.1||||||UNICODE".toList)).isEmpty) = true := by
    cases h : jsTrim ([SB] ++ "MSH|^~\\&|LIS|PC|URIT|UT-5160|".toList ++ dateStr
        ++ "||ACK^R01|ACK".toList ++ ackNum ++ "|P|2.3.1||||||UNICODE".toList) with
    | nil =>
      refine absurd h (jsTrim_ne_nil _ 'M' ?_ (by decide))
      simp only [List.mem_append]
      left; left; left; left; right
      decide
    | cons a t => rfl
  have e2 : (!(jsTrim ("MSA|AA|".toList ++ X)).isEmpty) = true := by
    cases h : jsTrim ("MSA|AA|".toList ++ X) with
    | nil =>
      refine absurd h (jsTrim_ne_nil _ 'M' ?_ (by decide))
      simp only [List.mem_append]
      left
      decide
    | cons a t => rfl
  have hsegs : segmentsOfFrame (URIT5160.createAcknowledgment dateStr ackNum X) =
      [([SB] ++ "MSH|^~\\&|LIS|PC|URIT|UT-5160|".toList ++ dateStr
          ++ "||ACK^R01|ACK".toList ++ ackNum ++ "|P|2.3.1||||||UNICODE".toList),
        ("MSA|AA|".toList ++ X), [FS]] := by
    rw [segmentsOfFrame, hlines]
    simp only [List.filter, e1, e2]
    rfl
  have hassoc1 : ([SB] ++ "MSH|^~\\&|LIS|PC|URIT|UT-5160|".toList ++ dateStr
      ++ "||ACK^R01|ACK".toList ++ ackNum ++ "|P|2.3.1||||||UNICODE".toList) =
      ([SB] ++ "MSH".toList) ++ '|' :: ("^~\\&|LIS|PC|URIT|UT-5160|".toList ++ dateStr
        ++ "||ACK^R01|ACK".toList ++ ackNum ++ "|P|2.3.1||||||UNICODE".toList) := by
    rw [show ("MSH|^~\\&|LIS|PC|URIT|UT-5160|".toList : Str) =
      "MSH".toList ++ '|' :: "^~\\&|LIS|PC|URIT|UT-5160|".toList from by decide]
    simp [List.append_assoc]
  have hsplit1 : splitSep '|' ([SB] ++ "MSH|^~\\&|LIS|PC|URIT|UT-5160|".toList ++ dateStr
      ++ "||ACK^R01|ACK".toList ++ ackNum ++ "|P|2.3.1||||||UNICODE".toList) =
      ([SB] ++ "MSH".toList) :: splitSep '|' ("^~\\&|LIS|PC|URIT|UT-5160|".toList ++ dateStr
        ++ "||ACK^R01|ACK".toList ++ ackNum ++ "|P|2.3.1||||||UNICODE".toList) := by
    rw [hassoc1]
    exact splitSep_append '|' _ _ (by decide)
  have hassoc2 : ("MSA|AA|".toList ++ X : Str) =
      "MSA".toList ++ '|' :: ("AA".toList ++ '|' :: X) := by
    rw [show ("MSA|AA|".toList : Str) =
      "MSA".toList ++ '|' :: ("AA".toList ++ '|' :: []) from by decide]
    simp [List.append_assoc]
  have hsplit2 : splitSep '|' ("MSA|AA|".toList ++ X) =
      "MSA".toList :: "AA".toList :: [X] := by
    rw [hassoc2]
    rw [splitSep_append '|' _ _ (by decide)]
    rw [splitSep_append '|' _ _ (by decide)]
    rw [splitSep_no_sep '|' X (fun hmem => ((hX '|' hmem).2.2) rfl)]
  rw [URIT5160.parseHL7Message, parseHL7MessageWith, hsegs]
  rw [List.foldl_cons, List.foldl_cons, List.foldl_cons, List.foldl_nil]
  rw [applySegment_skip _ _ _ _ _ _ hsplit1
    (by refine ⟨?_, ?_, ?_, ?_, ?_, ?_, ?_⟩ <;> decide)]
  rw [applySegment_msa _ _ _ _ _ hsplit2]
  rw [applySegment_skip _ _ _ _ _ _ (show splitSep '|' [FS] = [FS] :: [] from by decide)
    (by refine ⟨?_, ?_, ?_, ?_, ?_, ?_, ?_⟩ <;> decide)]
  rfl

/-- Witness for C9 at concrete date, ack number and control id texts. -/
theorem C9_witness :
    (URIT5160.parseHL7Message
        (URIT5160.createAcknowledgment ("20250809T120000".toList) ("17233".toList)
          ("MSG001".toList))).msa =
      some (MSASegment.mk ("AA".toList) ("MSG001".toList) [] []) :=
  C9_ack_roundtrip ("20250809T120000".toList) ("17233".toList) ("MSG001".toList)
    (by decide) (by decide) (by decide)

/-- Parsing leaves the control id empty whenever every MSH-tagged segment is
too short to carry field 9 (in particular when no MSH segment is present). -/
theorem foldl_applySegment_controlId (segs : List Str) (m : HL7Message)
    (hseg : ∀ seg ∈ segs,
      (splitSep '|' seg).headD [] = "MSH".toList → (splitSep '|' seg).length ≤ 9)
    (hm : m.msh.messageControlId = []) :
    (segs.foldl (applySegment URIT5160.parsePID URIT5160.parseOBX) m).msh.messageControlId
      = [] := by
  induction segs generalizing m with
  | nil => exact hm
  | cons seg rest ih =>
    rw [List.foldl_cons]
    refine ih _ (fun s hs hh => hseg s (List.mem_cons_of_mem seg hs) hh) ?_
    unfold applySegment
    by_cases hmsh : (splitSep '|' seg).headD [] = "MSH".toList
    · rw [if_pos hmsh]
      have hlen := hseg seg (List.mem_cons_self seg rest) hmsh
      show (parseMSH (splitSep '|' seg)).messageControlId = []
      rw [parseMSH]
      show fieldAt (splitSep '|' seg) 9 = []
      rw [fieldAt, List.getD_eq_default _ _ hlen]
    · rw [if_neg hmsh]
      split_ifs <;> simp [hm]

/-- C3 counterexample: the frame `PID|1` lacks the required header data (no
MSH segment at all), yet the server parses it without error and answers with
a positive acknowledgment (MSA code AA, empty control id) — not with the
negative acknowledgment MSA AE / ERR 103 the claim requires. -/
theorem C3_counterexample :
    handleFrame ("PID|1".toList) = AckResponse.ack [] ∧
    handleFrame ("PID|1".toList) ≠ AckResponse.nack ("UNKNOWN".toList) ("103".toList) := by
  decide

/-- C3 (amended): for every frame whose segments lack the required header
data (every MSH-tagged segment too short to carry the control id, including
frames with no MSH at all), parsing succeeds with empty header fields — it
never throws, so the catch branch writing the 103 NACK is unreachable — and
the server answers with a positive acknowledgment carrying the empty parsed
control id; the connection keeps serving, each frame's response depending
only on that frame. -/
theorem C3_malformed_header_positive_ack (frame : Str)
    (h : ∀ seg ∈ segmentsOfFrame frame,
      (splitSep '|' seg).headD [] = "MSH".toList → (splitSep '|' seg).length ≤ 9) :
    handleFrame frame = AckResponse.ack [] ∧
    ∀ before after : List Str,
      handleFrames (before ++ frame :: after) =
        handleFrames before ++ AckResponse.ack [] :: handleFrames after := by
  have h1 : handleFrame frame = AckResponse.ack [] := by
    rw [handleFrame, URIT5160.parseHL7Message, parseHL7MessageWith]
    rw [foldl_applySegment_controlId (segmentsOfFrame frame) emptyHL7 h rfl]
  refine ⟨h1, ?_⟩
  intro before after
  rw [handleFrames, List.map_append, List.map_cons, h1]
  rfl

/-- Witness for C3 (amended) at a concrete MSH-less frame. -/
theorem C3_witness :
    handleFrame ("PID|123".toList) = AckResponse.ack [] :=
  (C3_malformed_header_positive_ack ("PID|123".toList) (by decide)).1

/-- C5 counterexample: in the buffer `\x0B A \x0B B \x1C\r` the start marker
nearest to (i.e. last before) the end marker at index 4 is at index 2, so the
claimed behaviour would emit `B`; the code instead uses `indexOf`, the first
start marker in the buffer (index 0), and emits `A\x0BB`. -/
theorem C5_counterexample :
    startMarkerAt [SB, 'A', SB, 'B', FS, '\r'] 2 ∧
    ¬ startMarkerAt [SB, 'A', SB, 'B', FS, '\r'] 3 ∧
    endMarkerAt [SB, 'A', SB, 'B', FS, '\r'] 4 ∧
    processA [SB, 'A', SB, 'B', FS, '\r'] = ([['A', SB, 'B']], []) ∧
    (processA [SB, 'A', SB, 'B', FS, '\r']).1 ≠ [['B']] := by
  decide

/-- C5 (amended): per end-marker occurrence the assembler emits exactly the
substring between the first start marker of the buffered data (not the
nearest preceding one) and the first end marker, silently discards through
the end marker when no start marker precedes it (never raising — the
function is total), and with no end marker emits nothing and retains the
buffer, so multiple complete frames in one read are emitted independently by
successive iterations. -/
theorem C5_assembler_first_marker :
    (∀ b : Str, (∀ j, ¬ endMarkerAt b j) → processA b = ([], b)) ∧
    (∀ (b : Str) (e s : Nat),
      endMarkerAt b e → (∀ j, j < e → ¬ endMarkerAt b j) →
      startMarkerAt b s → (∀ j, j < s → ¬ startMarkerAt b j) → s < e →
      processA b =
        (((b.drop (s+1)).take (e - (s+1))) :: (processA (b.drop (e+2))).1,
          (processA (b.drop (e+2))).2)) ∧
    (∀ (b : Str) (e : Nat),
      endMarkerAt b e → (∀ j, j < e → ¬ endMarkerAt b j) →
      (∀ j, j < e → ¬ startMarkerAt b j) →
      processA b = processA (b.drop (e+2))) := by
  refine ⟨?_, ?_, ?_⟩
  · intro b h
    exact processA_no_end b ((idxOfEnd_eq_none_iff b).mpr h)
  · intro b e s he hemin hs hsmin hlt
    exact processA_emit b e s ((idxOfEnd_eq_some_iff b e).mpr ⟨he, hemin⟩)
      ((idxOfStart_eq_some_iff b s).mpr ⟨hs, hsmin⟩) hlt
  · intro b e he hemin hnostart
    refine processA_discard b e ((idxOfEnd_eq_some_iff b e).mpr ⟨he, hemin⟩) ?_
    cases hs : idxOfStart b with
    | none => exact Or.inl rfl
    | some s =>
      right
      refine ⟨s, rfl, ?_⟩
      intro hlt
      exact hnostart s hlt ((idxOfStart_eq_some_iff b s).mp hs).1

/-- Witness for C5: a framed message `\x0B M \x1C\r` followed by `x` emits
`M` and recurses on `x`; a marker-less prefix `A` before an end marker is
discarded through the marker. -/
theorem C5_witness :
    processA [SB, 'M', FS, '\r', 'x'] = (['M'] :: (processA ['x']).1, (processA ['x']).2) ∧
    processA ['A', FS, '\r', 'B'] = processA ['B'] := by
  constructor
  · have h := C5_assembler_first_marker.2.1 [SB, 'M', FS, '\r', 'x'] 2 0
      (by decide) (by decide) (by decide) (by decide) (by decide)
    rw [h]
    decide
  · have h := C5_assembler_first_marker.2.2 ['A', FS, '\r', 'B'] 1
      (by decide) (by decide) (by decide)
    rw [h]
    decide

namespace URIT8031

/-- `currentMessage` as the code builds it: each appended line followed by a
carriage return. -/
def joinCR (ls : List Str) : Str := ls.foldr (fun l acc => l ++ '\r' :: acc) []

/-- A line the assembler ever appends: produced by the line split (so free of
CR/LF) and starting with one of the four recognized segment tags. -/
def goodLine (t : Str) : Prop :=
  ('\r' ∉ t ∧ '\n' ∉ t) ∧
  ("MSH|".toList.isPrefixOf t = true ∨ "PID|".toList.isPrefixOf t = true ∨
    "OBR|".toList.isPrefixOf t = true ∨ "OBX|".toList.isPrefixOf t = true)

theorem goodLine_keep (t : Str) (h : goodLine t) : (!(jsTrim t).isEmpty) = true := by
  have hmem : ∃ c ∈ t, jsSpace c = false := by
    rcases h.2 with hp | hp | hp | hp
    · obtain ⟨r, hr⟩ := List.isPrefixOf_iff_prefix.mp hp
      exact ⟨'M', by rw [← hr]; exact List.mem_append_left r (by decide), by decide⟩
    · obtain ⟨r, hr⟩ := List.isPrefixOf_iff_prefix.mp hp
      exact ⟨'P', by rw [← hr]; exact List.mem_append_left r (by decide), by decide⟩
    · obtain ⟨r, hr⟩ := List.isPrefixOf_iff_prefix.mp hp
      exact ⟨'O', by rw [← hr]; exact List.mem_append_left r (by decide), by decide⟩
    · obtain ⟨r, hr⟩ := List.isPrefixOf_iff_prefix.mp hp
      exact ⟨'O', by rw [← hr]; exact List.mem_append_left r (by decide), by decide⟩
  obtain ⟨c, hc, hsp⟩ := hmem
  cases hh : jsTrim t with
  | nil => exact absurd hh (jsTrim_ne_nil t c hc hsp)
  | cons a l => rfl

theorem segmentsOfCur_joinCR (ls : List Str) (h : ∀ l ∈ ls, goodLine l) :
    segmentsOfCur (joinCR ls) = ls := by
  induction ls with
  | nil => rfl
  | cons t ts ih =>
    have ht := h t (List.mem_cons_self t ts)
    rw [segmentsOfCur, show joinCR (t :: ts) = t ++ '\r' :: joinCR ts from rfl]
    rw [splitSep_append '\r' t (joinCR ts) ht.1.1]
    rw [List.filter_cons, if_pos (goodLine_keep t ht)]
    rw [show (splitSep '\r' (joinCR ts)).filter (fun s => !(jsTrim s).isEmpty) =
      segmentsOfCur (joinCR ts) from rfl]
    rw [ih (fun l hl => h l (List.mem_cons_of_mem t hl))]

theorem joinCR_append_single (xs : List Str) (t : Str) :
    joinCR (xs ++ [t]) = joinCR xs ++ (t ++ ['\r']) := by
  induction xs with
  | nil => rfl
  | cons x xtail ih =>
    rw [List.cons_append, show joinCR (x :: (xtail ++ [t])) =
      x ++ '\r' :: joinCR (xtail ++ [t]) from rfl, ih]
    simp [joinCR, List.append_assoc]

/-- The assembler-state invariant: a started accumulation is a CR-joined list
of good lines headed by the MSH line; an idle state holds an empty
accumulation; an armed short (post-OBX) timer certifies an OBX segment is
present. -/
def Inv (s : AsmState) : Prop :=
  (s.messageStarted = true →
    ∃ l0 ls, s.currentMessage = joinCR (l0 :: ls) ∧
      "MSH|".toList.isPrefixOf l0 = true ∧ ∀ l ∈ l0 :: ls, goodLine l) ∧
  (s.messageStarted = false → s.currentMessage = []) ∧
  (s.timer = TimerState.short → hasOBX s.currentMessage = true ∧ s.messageStarted = true)

theorem Inv_init : Inv initState := by
  refine ⟨?_, ?_, ?_⟩ <;> intro h <;> simp [initState] at h ⊢

/-- What the claim guarantees of an emission. -/
def goodEmission (p : FlushTrigger × Str) : Prop :=
  (p.1 = FlushTrigger.longTimer ∨ p.1 = FlushTrigger.shortTimer ∨
      p.1 = FlushTrigger.close) →
    (∃ l0 ls, segmentsOfCur p.2 = l0 :: ls ∧ "MSH|".toList.isPrefixOf l0 = true) ∧
    hasOBX p.2 = true

theorem Inv_segments (s : AsmState) (hInv : Inv s) (hst : s.messageStarted = true) :
    ∃ l0 ls, segmentsOfCur s.currentMessage = l0 :: ls ∧
      "MSH|".toList.isPrefixOf l0 = true := by
  obtain ⟨l0, ls, hcur, hpre, hgood⟩ := hInv.1 hst
  exact ⟨l0, ls, by rw [hcur, segmentsOfCur_joinCR _ hgood], hpre⟩

theorem pcm_Inv (s : AsmState) (tr : FlushTrigger) (hInv : Inv s) :
    Inv (processCurrentMessage s tr).1 := by
  rw [processCurrentMessage]
  split
  · refine ⟨?_, ?_, ?_⟩
    · intro h; simp at h
    · intro _; rfl
    · intro h; simp at h
  · refine ⟨hInv.1, hInv.2.1, ?_⟩
    intro h; simp at h

end URIT8031

theorem jsTrim_subset (s : Str) (c : Char) (hc : c ∈ jsTrim s) : c ∈ s := by
  rw [jsTrim] at hc
  have h1 := List.mem_reverse.mp hc
  have h2 := (List.dropWhile_sublist jsSpace).subset h1
  have h3 := List.mem_reverse.mp h2
  exact (List.dropWhile_sublist jsSpace).subset h3

namespace URIT8031

theorem Inv_retimer (s : AsmState) (hInv : Inv s) :
    Inv { s with timer := TimerState.off } := by
  refine ⟨hInv.1, hInv.2.1, ?_⟩
  intro h
  simp at h

/-- One step of the assembler preserves the invariant, and every emission it
produces that is triggered by either idle timer or by connection close
carries an MSH-headed segment list containing an OBX segment. -/
theorem step_Inv (s : AsmState) (e : AsmEvent) (hInv : Inv s)
    (he : ∀ l, e = AsmEvent.line l → ('\r' ∉ l ∧ '\n' ∉ l)) :
    Inv (step s e).1 ∧ ∀ p ∈ (step s e).2, goodEmission p := by
  cases e with
  | line l =>
    have hl := he l rfl
    have hfree : '\r' ∉ jsTrim l ∧ '\n' ∉ jsTrim l :=
      ⟨fun hm => hl.1 (jsTrim_subset l _ hm), fun hm => hl.2 (jsTrim_subset l _ hm)⟩
    rw [show step s (AsmEvent.line l) = stepLine s l from rfl]
    unfold stepLine
    by_cases h1 : jsTrim l = []
    · rw [if_pos h1]
      exact ⟨hInv, by intro p hp; cases hp⟩
    rw [if_neg h1]
    by_cases h2 : jsTrim l = "∟".toList ∨ "♂".toList.isPrefixOf (jsTrim l) = true
    · rw [if_pos h2]
      refine ⟨pcm_Inv s _ hInv, ?_⟩
      intro p hp
      rw [processCurrentMessage] at hp
      split at hp
      · rcases List.mem_singleton.mp hp with rfl
        intro htr
        rcases htr with h | h | h <;> simp at h
      · cases hp
    rw [if_neg h2]
    by_cases h3 : "MSH|".toList.isPrefixOf (jsTrim l) = true
    · rw [if_pos h3]
      constructor
      · refine ⟨?_, ?_, ?_⟩
        · intro _
          refine ⟨jsTrim l, [], rfl, h3, ?_⟩
          intro x hx
          rcases List.mem_singleton.mp hx with rfl
          exact ⟨hfree, Or.inl h3⟩
        · intro h; simp at h
        · intro h; simp at h
      · intro p hp
        simp only at hp
        rw [processCurrentMessage] at hp
        split at hp
        · rcases List.mem_singleton.mp hp with rfl
          intro htr
          rcases htr with h | h | h <;> simp at h
        · cases hp
    rw [if_neg h3]
    by_cases h4 : s.messageStarted = true ∧
        ("PID|".toList.isPrefixOf (jsTrim l) = true ∨ "OBR|".toList.isPrefixOf (jsTrim l) = true ∨
          "OBX|".toList.isPrefixOf (jsTrim l) = true)
    · rw [if_pos h4]
      obtain ⟨l0, ls, hcur, hpre, hgood⟩ := hInv.1 h4.1
      have hgoodt : goodLine (jsTrim l) := by
        refine ⟨hfree, ?_⟩
        rcases h4.2 with h | h | h
        · exact Or.inr (Or.inl h)
        · exact Or.inr (Or.inr (Or.inl h))
        · exact Or.inr (Or.inr (Or.inr h))
      have hallgood : ∀ x ∈ l0 :: (ls ++ [jsTrim l]), goodLine x := by
        intro x hx
        rcases List.mem_cons.mp hx with rfl | hx2
        · exact hgood x (List.mem_cons_self x ls)
        · rcases List.mem_append.mp hx2 with hx3 | hx3
          · exact hgood x (List.mem_cons_of_mem l0 hx3)
          · rcases List.mem_singleton.mp hx3 with rfl
            exact hgoodt
      have hjoin : s.currentMessage ++ jsTrim l ++ ['\r'] =
          joinCR (l0 :: (ls ++ [jsTrim l])) := by
        rw [show (l0 :: (ls ++ [jsTrim l])) = (l0 :: ls) ++ [jsTrim l] from rfl]
        rw [joinCR_append_single, hcur]
        simp [List.append_assoc]
      by_cases h5 : "OBX|".toList.isPrefixOf (jsTrim l) = true
      · rw [if_pos h5]
        refine ⟨⟨?_, ?_, ?_⟩, by intro p hp; cases hp⟩
        · intro _
          exact ⟨l0, ls ++ [jsTrim l], hjoin, hpre, hallgood⟩
        · intro h
          simp only at h
          rw [h4.1] at h
          cases h
        · intro _
          constructor
          · show hasOBX (s.currentMessage ++ jsTrim l ++ ['\r']) = true
            rw [hjoin, hasOBX, segmentsOfCur_joinCR _ hallgood]
            rw [show (l0 :: (ls ++ [jsTrim l])) = (l0 :: ls) ++ [jsTrim l] from rfl]
            rw [List.any_append]
            have h5p := List.isPrefixOf_iff_prefix.mp h5
            simp
            exact Or.inr h5p
          · exact h4.1
      · rw [if_neg h5]
        refine ⟨⟨?_, ?_, ?_⟩, by intro p hp; cases hp⟩
        · intro _
          exact ⟨l0, ls ++ [jsTrim l], hjoin, hpre, hallgood⟩
        · intro h
          simp only at h
          rw [h4.1] at h
          cases h
        · intro ht
          simp only at ht
          obtain ⟨hobx, hst⟩ := hInv.2.2 ht
          constructor
          · show hasOBX (s.currentMessage ++ jsTrim l ++ ['\r']) = true
            rw [hjoin, hasOBX, segmentsOfCur_joinCR _ hallgood]
            rw [show (l0 :: (ls ++ [jsTrim l])) = (l0 :: ls) ++ [jsTrim l] from rfl]
            rw [List.any_append]
            rw [hasOBX] at hobx
            rw [hcur, segmentsOfCur_joinCR _ hgood] at hobx
            simp at hobx ⊢
            exact Or.inl hobx
          · exact hst
    · rw [if_neg h4]
      exact ⟨hInv, by intro p hp; cases hp⟩
  | longFire =>
    rw [show step s AsmEvent.longFire = (if s.timer = TimerState.long then
      (if s.messageStarted = true ∧ jsTrim s.currentMessage ≠ [] ∧
          2 ≤ (segmentsOfCur s.currentMessage).length ∧ hasOBX s.currentMessage = true then
        processCurrentMessage { s with timer := TimerState.off } FlushTrigger.longTimer
      else ({ s with timer := TimerState.off }, []))
      else (s, [])) from rfl]
    by_cases h1 : s.timer = TimerState.long
    · rw [if_pos h1]
      by_cases h2 : s.messageStarted = true ∧ jsTrim s.currentMessage ≠ [] ∧
          2 ≤ (segmentsOfCur s.currentMessage).length ∧ hasOBX s.currentMessage = true
      · rw [if_pos h2]
        refine ⟨pcm_Inv _ _ (Inv_retimer s hInv), ?_⟩
        intro p hp
        rw [processCurrentMessage] at hp
        split at hp
        · rcases List.mem_singleton.mp hp with rfl
          intro _
          exact ⟨Inv_segments s hInv h2.1, h2.2.2.2⟩
        · cases hp
      · rw [if_neg h2]
        exact ⟨Inv_retimer s hInv, by intro p hp; cases hp⟩
    · rw [if_neg h1]
      exact ⟨hInv, by intro p hp; cases hp⟩
  | shortFire =>
    rw [show step s AsmEvent.shortFire = (if s.timer = TimerState.short then
      (if s.messageStarted = true ∧ jsTrim s.currentMessage ≠ [] ∧
          2 ≤ (segmentsOfCur s.currentMessage).length then
        processCurrentMessage { s with timer := TimerState.off } FlushTrigger.shortTimer
      else ({ s with timer := TimerState.off }, []))
      else (s, [])) from rfl]
    by_cases h1 : s.timer = TimerState.short
    · rw [if_pos h1]
      obtain ⟨hobx, hst⟩ := hInv.2.2 h1
      by_cases h2 : s.messageStarted = true ∧ jsTrim s.currentMessage ≠ [] ∧
          2 ≤ (segmentsOfCur s.currentMessage).length
      · rw [if_pos h2]
        refine ⟨pcm_Inv _ _ (Inv_retimer s hInv), ?_⟩
        intro p hp
        rw [processCurrentMessage] at hp
        split at hp
        · rcases List.mem_singleton.mp hp with rfl
          intro _
          exact ⟨Inv_segments s hInv hst, hobx⟩
        · cases hp
      · rw [if_neg h2]
        exact ⟨Inv_retimer s hInv, by intro p hp; cases hp⟩
    · rw [if_neg h1]
      exact ⟨hInv, by intro p hp; cases hp⟩
  | close =>
    rw [show step s AsmEvent.close = (if s.messageStarted = true ∧
        jsTrim s.currentMessage ≠ [] ∧ 2 ≤ (segmentsOfCur s.currentMessage).length ∧
        hasOBX s.currentMessage = true then
      ({ s with timer := TimerState.off }, [(FlushTrigger.close, s.currentMessage)])
      else ({ s with timer := TimerState.off }, [])) from rfl]
    by_cases h1 : s.messageStarted = true ∧ jsTrim s.currentMessage ≠ [] ∧
        2 ≤ (segmentsOfCur s.currentMessage).length ∧ hasOBX s.currentMessage = true
    · rw [if_pos h1]
      refine ⟨Inv_retimer s hInv, ?_⟩
      intro p hp
      rcases List.mem_singleton.mp hp with rfl
      intro _
      exact ⟨Inv_segments s hInv h1.1, h1.2.2.2⟩
    · rw [if_neg h1]
      exact ⟨Inv_retimer s hInv, by intro p hp; cases hp⟩

end URIT8031

namespace URIT8031

theorem run_Inv (evs : List AsmEvent) : ∀ s : AsmState, Inv s →
    (∀ l, AsmEvent.line l ∈ evs → ('\r' ∉ l ∧ '\n' ∉ l)) →
    Inv (run s evs).1 ∧ ∀ p ∈ (run s evs).2, goodEmission p := by
  induction evs with
  | nil =>
    intro s hInv _
    exact ⟨hInv, by intro p hp; cases hp⟩
  | cons e rest ih =>
    intro s hInv hevs
    have hstep := step_Inv s e hInv (by
      intro l hel
      exact hevs l (hel ▸ List.mem_cons_self e rest))
    have hrest := ih (step s e).1 hstep.1
      (fun l hl => hevs l (List.mem_cons_of_mem e hl))
    rw [show run s (e :: rest) = ((run (step s e).1 rest).1,
      (step s e).2 ++ (run (step s e).1 rest).2) from rfl]
    refine ⟨hrest.1, ?_⟩
    intro p hp
    rcases List.mem_append.mp hp with hp2 | hp2
    · exact hstep.2 p hp2
    · exact hrest.2 p hp2

end URIT8031

/-- C4 counterexample: feeding the single header line `MSH|1` and then the
explicit end token `∟` makes the assembler emit the accumulation
`MSH|1\r` as a message even though it contains no OBX observation segment —
contradicting the claim that every flushed accumulation contains a header
plus at least one observation and that accumulations lacking one are
discarded, never emitted. -/
theorem C4_counterexample :
    (URIT8031.run URIT8031.initState
        [URIT8031.AsmEvent.line ("MSH|1".toList),
         URIT8031.AsmEvent.line ("∟".toList)]).2 =
      [(URIT8031.FlushTrigger.endToken, "MSH|1\r".toList)] ∧
    URIT8031.hasOBX ("MSH|1\r".toList) = false := by
  constructor
  · rfl
  · decide

/-- C4 (amended): every accumulation flushed by the long idle timer, the
shorter post-observation timer, or connection close contains an MSH header
plus at least one OBX observation segment (accumulations lacking them are
not emitted by those triggers); the explicit end token — and a new header
line — flush any started, non-blank accumulation even without an
observation segment. -/
theorem C4_timer_close_flush_has_header_obx (evs : List URIT8031.AsmEvent)
    (hevs : ∀ l, URIT8031.AsmEvent.line l ∈ evs → ('\r' ∉ l ∧ '\n' ∉ l)) :
    ∀ p ∈ (URIT8031.run URIT8031.initState evs).2,
      (p.1 = URIT8031.FlushTrigger.longTimer ∨ p.1 = URIT8031.FlushTrigger.shortTimer ∨
        p.1 = URIT8031.FlushTrigger.close) →
      (∃ l0 ls, URIT8031.segmentsOfCur p.2 = l0 :: ls ∧
        "MSH|".toList.isPrefixOf l0 = true) ∧
      URIT8031.hasOBX p.2 = true := by
  intro p hp htr
  exact (URIT8031.run_Inv evs URIT8031.initState URIT8031.Inv_init hevs).2 p hp htr

/-- Witness for C4: a header line, one OBX line, then the short post-OBX
timer firing — the flushed message holds the MSH header and the OBX. -/
theorem C4_witness :
    (∃ l0 ls, URIT8031.segmentsOfCur ("MSH|1|a\rOBX|1|NM|2|GLI|5\r".toList) = l0 :: ls ∧
      "MSH|".toList.isPrefixOf l0 = true) ∧
    URIT8031.hasOBX ("MSH|1|a\rOBX|1|NM|2|GLI|5\r".toList) = true := by
  refine C4_timer_close_flush_has_header_obx
    [URIT8031.AsmEvent.line ("MSH|1|a".toList),
     URIT8031.AsmEvent.line ("OBX|1|NM|2|GLI|5".toList),
     URIT8031.AsmEvent.shortFire]
    ?_ (URIT8031.FlushTrigger.shortTimer, "MSH|1|a\rOBX|1|NM|2|GLI|5\r".toList)
    (by decide) (Or.inr (Or.inl rfl))
  intro l hl
  simp only [List.mem_cons, List.not_mem_nil, or_false] at hl
  rcases hl with hl | hl | hl
  · injection hl with h; rw [h]; exact ⟨by decide, by decide⟩
  · injection hl with h; rw [h]; exact ⟨by decide, by decide⟩
  · cases hl
